import Mathlib

/-!
Shallow embedding of `src/process.py` (cis-ice-charts ingestion pipeline).

Strings are modelled as `List Char` (`Str`), matching Python `str` for the
ASCII data handled by the script.  Geometries are modelled by their
axis-aligned bounding boxes (`Box`): every geometry the pipeline stores has
already been reduced to `unary_union(...).envelope`, and the only geometry
operations performed afterwards (`unary_union` followed by `.envelope`,
`.bounds`) depend on the operands only through their bounding boxes, for
which `unary_union(gs).envelope` is the least box enclosing all of `gs`.
Table rows are `Row` records; a cell of a dynamically typed column
(`assets` / `links` / `properties`) is a `CellVal`: `.val` for a value of
the expected shape (dict / list), `.absent` for a missing-column / NaN cell,
`.other` for a value of a different type (the `isinstance` guards in the
source treat `.absent` and `.other` alike).
-/

abbrev Str := List Char

/-- Coerce a Lean string literal to the `List Char` string model. -/
def str (s : String) : Str := s.data

/-- Axis-aligned bounding box, in `(minx, miny, maxx, maxy)` order, matching
shapely `bounds`.  Coordinates are integers: the claims under study never
depend on non-integral coordinates. -/
structure Box where
  x0 : Int
  y0 : Int
  x1 : Int
  y1 : Int
deriving DecidableEq, Repr

/-- Least box enclosing two boxes: the effect of `unary_union` + `.envelope`
on bounding boxes. -/
def hull2 (a b : Box) : Box :=
  { x0 := min a.x0 b.x0, y0 := min a.y0 b.y0, x1 := max a.x1 b.x1, y1 := max a.y1 b.y1 }

/-- Effect of `unary_union(g :: gs).envelope` on bounding boxes. -/
def hullList (b : Box) (bs : List Box) : Box := bs.foldl hull2 b

/-- Model of `list(geom.bounds)`. -/
def boundsList (b : Box) : List Int := [b.x0, b.y0, b.x1, b.y1]

/-- Model of `unary_union(geoms).envelope` over a geometry column that may contain
nulls: missing geometries are ignored (shapely 2 `union_all` semantics), an
all-missing / empty input yields the empty geometry (`none`). -/
def mergeGeoms (gs : List (Option Box)) : Option Box :=
  match gs.filterMap id with
  | [] => none
  | b :: bs => some (hullList b bs)

/-- A calendar date (`datetime.date`). -/
structure Date where
  year : Nat
  month : Nat
  day : Nat
deriving DecidableEq, Repr

instance : Inhabited Date := ⟨⟨1970, 1, 1⟩⟩

def leapYear (y : Nat) : Bool :=
  (y % 4 == 0 && y % 100 != 0) || y % 400 == 0

def daysInMonth (y m : Nat) : Nat :=
  if m = 2 then (if leapYear y then 29 else 28)
  else if m = 4 ∨ m = 6 ∨ m = 9 ∨ m = 11 then 30
  else 31

/-- The dates representable by Python `datetime.date` (proleptic Gregorian,
year 1..9999). -/
def validDate (d : Date) : Bool :=
  1 ≤ d.year && d.year ≤ 9999 && 1 ≤ d.month && d.month ≤ 12 &&
    1 ≤ d.day && d.day ≤ daysInMonth d.year d.month

/-- Python `date` comparison (lexicographic on year, month, day). -/
def dateLe (a b : Date) : Bool :=
  a.year < b.year ||
    (a.year == b.year &&
      (a.month < b.month || (a.month == b.month && a.day ≤ b.day)))

def digitVal (c : Char) : Nat := c.toNat - 48

/-- Value of a decimal digit string (all callers guard that every char is a
digit). -/
def natOfDigits (s : Str) : Nat := s.foldl (fun a c => 10 * a + digitVal c) 0

/-- Model of `datetime.strptime(s, "%Y%m%d").date()` wrapped in try/except
`ValueError`: on an 8-digit string it splits 4-2-2 and succeeds exactly when
the fields form a representable calendar date. -/
def parseYYYYMMDD (s : Str) : Option Date :=
  if s.length = 8 ∧ s.all Char.isDigit then
    let y := natOfDigits (s.take 4)
    let m := natOfDigits ((s.drop 4).take 2)
    let d := natOfDigits ((s.drop 4).drop 2)
    if 1 ≤ y ∧ 1 ≤ m ∧ m ≤ 12 ∧ 1 ≤ d ∧ d ≤ daysInMonth y m then
      some ⟨y, m, d⟩
    else none
  else none

/-- Model of `re.search(r"(\d{8})", s)`: leftmost window of 8 consecutive digits. -/
def reSearchEight : Str → Option Str
  | [] => none
  | c :: cs =>
    if ((c :: cs).take 8).length = 8 ∧ ((c :: cs).take 8).all Char.isDigit then
      some ((c :: cs).take 8)
    else reSearchEight cs

/-- Function `extract_date` from `process.py`. -/
def extract_date (folder_name : Str) : Option Date :=
  match reSearchEight folder_name with
  | some ds => parseYYYYMMDD ds
  | none => none

-- Custom filters (module-level constants in `process.py`)
def SKIP_SUFFIXES : List Str := [str ".tar"]
def SKIP_PREFIXES : List Str := [str "BAD_", str "TMP_", str "TEST_"]

/-- Function `should_skip` from `process.py`. -/
def should_skip (folder_name : Str) : Bool :=
  SKIP_SUFFIXES.any (fun suffix => suffix.isSuffixOf folder_name) ||
    SKIP_PREFIXES.any (fun pre => pre.isPrefixOf folder_name)

/-- Default of `os.getenv("STYLE_URL", ...)` in `process.py`. -/
def STYLE_URL_DEFAULT : Str :=
  str "https://raw.githubusercontent.com/gtif-cerulean/assets/refs/heads/main/styles/dmi-ice-charts.json"

/-- Model of `os.getenv("STYLE_URL", <default>)`: the configured style URL as a
function of the environment variable (absent / present). -/
def styleUrlFromEnv (env : Option String) : Str :=
  match env with
  | some s => str s
  | none => STYLE_URL_DEFAULT

def GEOJSON_TYPE : Str := str "application/geo+json"

/-- One value of the `assets` mapping: `{href, type, roles}` (`type` is a
Lean keyword, hence `atype`). -/
structure Asset where
  href : Str
  atype : Str
  roles : List Str
deriving DecidableEq, Repr

/-- One link object `{rel, href, type, "asset:keys"}`; `rel` is optional
because `link.get("rel")` tolerates its absence (`ltype` models `type`,
`assetKeys` models `asset:keys`). -/
structure Link where
  rel : Option Str
  href : Str
  ltype : Str
  assetKeys : List Str
deriving DecidableEq, Repr

/-- The `properties` dict attached to placeholder items. -/
structure Props where
  description : Str
  invalid : Bool
deriving DecidableEq, Repr

/-- A cell of a dynamically typed table column: expected value, missing
(column absent for this row / NaN after `concat`), or a value of another
runtime type. -/
inductive CellVal (α : Type) where
  | absent : CellVal α
  | other : CellVal α
  | val : α → CellVal α
deriving DecidableEq, Repr

/-- One table row, covering both the per-item and the daily table.  The
`assets` dict is an insertion-ordered association list, as Python dicts
are. -/
structure Row where
  id : Str
  datetime : Date
  geometry : Option Box
  bbox : Option (List Int)
  assets : CellVal (List (Str × Asset))
  links : CellVal (List Link)
  properties : CellVal Props
deriving DecidableEq, Repr

/-- One `{url, geometry}` asset entry handed to `create_stac_item`; its
geometry is always an envelope already (`unary_union(...).envelope` in the
fetch loop). -/
structure AssetEntry where
  url : Str
  geometry : Box
deriving DecidableEq, Repr

/-- Key string `f"asset_{i}"`. -/
def assetKey (i : Nat) : Str := str "asset_" ++ Nat.toDigits 10 i

/-- Dict comprehension `{f"asset_{i}": a for i, a in enumerate(as_)}`: contiguous re-keying of
an asset list. -/
def rekeyAssets (as_ : List Asset) : List (Str × Asset) :=
  as_.enum.map (fun p => (assetKey p.1, p.2))

/-- Function `create_stac_item` from `process.py`.  The asset dict comprehension
`{f"asset_{i}": {"href": a["url"], "type": asset_type, "roles": ["data"]}
for i, a in enumerate(assets)}` is written as `rekeyAssets` applied to the
mapped asset list, which builds the same association list.  A successful
item carries no `properties` key (`.absent`). -/
def create_stac_item (date : Date) (id_ : Str) (assets : List AssetEntry)
    (asset_type : Str) : Row :=
  match assets with
  | [] =>
    { id := id_, datetime := date, geometry := none, bbox := none,
      assets := .val [], links := .val [],
      properties := .val ⟨str "Error downloading or processing assets", true⟩ }
  | a :: rest =>
    let merged_geom := hullList a.geometry (rest.map (·.geometry))
    { id := id_, datetime := date,
      geometry := some merged_geom,
      bbox := some (boundsList merged_geom),
      assets := .val (rekeyAssets ((a :: rest).map
        (fun e => { href := e.url, atype := asset_type, roles := [str "data"] }))),
      links := .val [],
      properties := .absent }

/-- The row-keeping predicate of the invalid-item exclusion in
`merge_items_per_day`:
`~ (props.get("invalid", False) if isinstance(props, dict) else False)`.
When the `properties` column is absent from the frame the source skips the
filter altogether; that is extensionally the same as filtering a table all
of whose `properties` cells are `.absent` (every row is kept). -/
def rowKept (r : Row) : Bool :=
  match r.properties with
  | .val p => !p.invalid
  | _ => true

/-- Asset values contributed by a row in the merge loop
(`asset_dict.values()` guarded by `isinstance(asset_dict, dict)`). -/
def rowAssetVals (r : Row) : List Asset :=
  match r.assets with
  | .val d => d.map Prod.snd
  | _ => []

/-- The `assets` dict of a row as seen by `row.get("assets", {})`.  (The
rows this is applied to — `merge_items_per_day` outputs — always carry a
dict here.) -/
def rowAssetsDict (r : Row) : List (Str × Asset) :=
  match r.assets with
  | .val d => d
  | _ => []

/-- Links contributed by a row (`isinstance(link_set, list)` guard), also
`row.get("links", [])`. -/
def rowLinkList (r : Row) : List Link :=
  match r.links with
  | .val l => l
  | _ => []

/-- Fallback-safe `group["datetime"].iloc[0]` (groups are never empty). -/
def headDate : List Row → Date
  | [] => default
  | r :: _ => r.datetime

/-- Body of the `for id_, group in df.groupby("id")` loop in
`merge_items_per_day`: the merged record of one group. -/
def mergeGroup (id_ : Str) (group : List Row) : Row :=
  let geom := mergeGeoms (group.map (·.geometry))
  let assets := List.flatten (group.map rowAssetVals)
  let links := List.flatten (group.map rowLinkList)
  { id := id_, datetime := headDate group,
    geometry := geom,
    bbox := some (match geom with | some b => boundsList b | none => []),
    assets := .val (rekeyAssets assets),
    links := .val links,
    properties := .absent }

/-- Group keys of `df.groupby("id")`: the distinct ids, in sorted order
(pandas sorts group keys). -/
def sortedIds (rs : List Row) : List Str :=
  ((rs.map Row.id).dedup).insertionSort (· ≤ ·)

/-- Function `merge_items_per_day` from `process.py`: drop invalid rows, group the
rest by `id` (sorted keys, rows of a group in table order), and emit one
merged record per group. -/
def merge_items_per_day (df : List Row) : List Row :=
  let kept := df.filter rowKept
  (sortedIds kept).map (fun i => mergeGroup i (kept.filter (fun r => r.id == i)))

/-- Function `add_style_link` from `process.py`; the module-global `STYLE_URL` is
passed explicitly. -/
def add_style_link (style_url : Str) (row : Row) : List Link :=
  if style_url = [] then rowLinkList row
  else
    let asset_keys := (rowAssetsDict row).map Prod.fst
    if asset_keys = [] then rowLinkList row
    else
      (rowLinkList row).filter (fun link => !(link.rel == some (str "style"))) ++
        [{ rel := some (str "style"), href := style_url,
           ltype := str "text/vector-styles", assetKeys := asset_keys }]

/-- Assignment `final["links"] = final.apply(add_style_link, axis=1)`. -/
def applyStyleAll (style_url : Str) (df : List Row) : List Row :=
  df.map (fun r => { r with links := .val (add_style_link style_url r) })

/-- Two-digit zero-padded decimal (`%m` / `%d` of `strftime` for the
values < 100 that valid dates produce). -/
def pad2 (n : Nat) : Str := [Nat.digitChar (n / 10 % 10), Nat.digitChar (n % 10)]

/-- Four-digit zero-padded decimal (`%Y` of `strftime` for years ≤ 9999,
the only years `datetime.date` admits). -/
def pad4 (n : Nat) : Str :=
  [Nat.digitChar (n / 1000 % 10), Nat.digitChar (n / 100 % 10),
   Nat.digitChar (n / 10 % 10), Nat.digitChar (n % 10)]

/-- Model of `date.strftime("%Y-%m-%d")`. -/
def isoDate (d : Date) : Str := pad4 d.year ++ '-' :: pad2 d.month ++ '-' :: pad2 d.day

/-- One step of `grouped_items[date].append({"url": ..., "geometry": ...})`
on a `defaultdict(list)` represented as an insertion-ordered association
list. -/
def groupAppend (acc : List (Date × List AssetEntry)) (d : Date) (e : AssetEntry) :
    List (Date × List AssetEntry) :=
  if acc.any (fun p => p.1 == d) then
    acc.map (fun p => if p.1 == d then (p.1, p.2 ++ [e]) else p)
  else acc ++ [(d, [e])]

/-- The `grouped_items` dict accumulated over one run's successfully
processed folders, from the run's `(date, asset-entry)` stream. -/
def groupByDate (items : List (Date × AssetEntry)) : List (Date × List AssetEntry) :=
  items.foldl (fun acc x => groupAppend acc x.1 x.2) []

/-- The `grouped_records` list of `main`: one synthetic daily item per date
seen this run, with id = ISO date string. -/
def dailyRecords (items : List (Date × AssetEntry)) : List Row :=
  (groupByDate items).map (fun p => create_stac_item p.1 (isoDate p.1) p.2 GEOJSON_TYPE)

/-- The daily-aggregation stage of `main` (lines 187-205): build one
synthetic daily item per date seen this run, concatenate onto the
previously persisted daily table, merge per day, and re-attach style
links.  `grouped_existing` is the loaded previous daily table; `items` is
the run's stream of successfully processed `(date, asset-entry)` pairs. -/
def aggregationStage (style_url : Str) (grouped_existing : List Row)
    (items : List (Date × AssetEntry)) : List Row :=
  applyStyleAll style_url (merge_items_per_day (grouped_existing ++ dailyRecords items))

/-- The daily table persisted after a sequence of runs, starting from the
empty table (`load_existing_parquet` of a missing file). -/
def dailyAfterRuns (style_url : Str) (runs : List (List (Date × AssetEntry))) : List Row :=
  runs.foldl (fun daily run => aggregationStage style_url daily run) []

/-- From-scratch recomputation of the daily table from the accumulated
stream of non-invalid per-item data (invalid items contribute no
entries): one merged record per calendar day. -/
def recomputeDaily (style_url : Str) (items : List (Date × AssetEntry)) : List Row :=
  aggregationStage style_url [] items

/-- Model of `path.split("/")[-1]`. -/
def lastSeg (path : Str) : Str :=
  path.foldl (fun acc c => if c == '/' then [] else acc ++ [c]) []

/-- The discovery filter of `main` (lines 130-137): a folder path is
accepted (processing proceeds past the date check) iff its name passes the
skip rules, is not an already-known id, and bears a date inside the
configured window. -/
def acceptFolder (start_date end_date : Date) (existing_ids : List Str)
    (path : Str) : Bool :=
  let folder_name := lastSeg path
  if should_skip folder_name || existing_ids.any (fun i => i == folder_name) then
    false
  else
    match extract_date folder_name with
    | none => false
    | some d => dateLe start_date d && dateLe d end_date

/-- The set of folder paths a run accepts for processing. -/
def discover (start_date end_date : Date) (existing_ids : List Str)
    (folders : List Str) : List Str :=
  folders.filter (acceptFolder start_date end_date existing_ids)

/-! Canonical per-day form of the daily table, used to relate the
incremental aggregation stage to from-scratch recomputation. -/

/-- The asset descriptor built for one `{url, geometry}` entry. -/
def entryAsset (e : AssetEntry) : Asset :=
  { href := e.url, atype := GEOJSON_TYPE, roles := [str "data"] }

/-- All asset entries of an item stream whose date renders to day id `i`,
in stream order. -/
def entriesOn (items : List (Date × AssetEntry)) (i : Str) : List AssetEntry :=
  (items.filter (fun x => isoDate x.1 == i)).map Prod.snd

/-- The date of the first item rendering to day id `i`. -/
def firstDateOn (items : List (Date × AssetEntry)) (i : Str) : Date :=
  match items.filter (fun x => isoDate x.1 == i) with
  | [] => default
  | x :: _ => x.1

/-- The distinct day ids of an item stream, sorted. -/
def idsOfItems (items : List (Date × AssetEntry)) : List Str :=
  ((items.map (fun x => isoDate x.1)).dedup).insertionSort (· ≤ ·)

def dayAssets (items : List (Date × AssetEntry)) (i : Str) : List (Str × Asset) :=
  rekeyAssets ((entriesOn items i).map entryAsset)

def dayGeom (items : List (Date × AssetEntry)) (i : Str) : Option Box :=
  match (entriesOn items i).map (·.geometry) with
  | [] => none
  | b :: bs => some (hullList b bs)

def dayLinks (style_url : Str) (items : List (Date × AssetEntry)) (i : Str) :
    List Link :=
  if style_url = [] then []
  else [{ rel := some (str "style"), href := style_url,
          ltype := str "text/vector-styles",
          assetKeys := (dayAssets items i).map Prod.fst }]

/-- The fully merged, styled daily record for day id `i` of an item
stream. -/
def canonicalRow (style_url : Str) (items : List (Date × AssetEntry)) (i : Str) : Row :=
  { id := i, datetime := firstDateOn items i,
    geometry := dayGeom items i,
    bbox := some (match dayGeom items i with | some b => boundsList b | none => []),
    assets := .val (dayAssets items i),
    links := .val (dayLinks style_url items i),
    properties := .absent }

/-- The daily table an item stream determines: one canonical record per
distinct day id, sorted by id. -/
def canonicalTable (style_url : Str) (items : List (Date × AssetEntry)) : List Row :=
  (idsOfItems items).map (canonicalRow style_url items)

/-- All entries a grouping association list holds under key `d`. -/
def keyEntries (g : List (Date × List AssetEntry)) (d : Date) : List AssetEntry :=
  List.flatten ((g.filter (fun p => p.1 == d)).map Prod.snd)

/-- A match of `\d{8}` at the start of `t`: `t` begins with 8 digits. -/
def digitWindow8 (t : Str) : Prop :=
  (t.take 8).length = 8 ∧ (t.take 8).all Char.isDigit

instance (t : Str) : Decidable (digitWindow8 t) := by
  unfold digitWindow8
  infer_instance

/-! Concrete sample data for instantiating the theorems below. -/

def sampleBox : Box := { x0 := 0, y0 := 0, x1 := 2, y1 := 2 }

def sampleEntry : AssetEntry := { url := str "http://h/a.geojson", geometry := sampleBox }

def sampleAsset : Asset :=
  { href := str "http://h/a.geojson", atype := GEOJSON_TYPE, roles := [str "data"] }

def sampleValidRow : Row :=
  { id := str "2025-01-03", datetime := ⟨2025, 1, 3⟩,
    geometry := some sampleBox, bbox := some (boundsList sampleBox),
    assets := .val [(assetKey 0, sampleAsset)], links := .val [],
    properties := .absent }

def sampleInvalidRow : Row :=
  { id := str "2025-01-03", datetime := ⟨2025, 1, 3⟩,
    geometry := none, bbox := none, assets := .val [], links := .val [],
    properties := .val ⟨str "Error downloading or processing assets", true⟩ }


/-! ### Generic list helpers -/

theorem enumFrom_map_snd {α : Type} (n : Nat) (l : List α) :
    (l.enumFrom n).map Prod.snd = l := by
  induction l generalizing n with
  | nil => rfl
  | cons a l ih => simp [List.enumFrom, ih]

theorem rekeyAssets_map_snd (as_ : List Asset) :
    (rekeyAssets as_).map Prod.snd = as_ := by
  simp only [rekeyAssets, List.enum, List.map_map]
  exact enumFrom_map_snd 0 as_

theorem rekeyAssets_length (as_ : List Asset) :
    (rekeyAssets as_).length = as_.length := by
  have h := congrArg List.length (rekeyAssets_map_snd as_)
  simpa using h

theorem hull2_assoc (a b c : Box) : hull2 (hull2 a b) c = hull2 a (hull2 b c) := by
  simp [hull2, min_assoc, max_assoc]

theorem foldl_hull2_hull2 (bs : List Box) (x y : Box) :
    bs.foldl hull2 (hull2 x y) = hull2 x (bs.foldl hull2 y) := by
  induction bs generalizing y with
  | nil => rfl
  | cons b bs ih => simp only [List.foldl_cons, hull2_assoc, ih]

theorem hullList_append (a : Box) (as : List Box) (b : Box) (bs : List Box) :
    hullList a (as ++ b :: bs) = hull2 (hullList a as) (hullList b bs) := by
  simp only [hullList, List.foldl_append, List.foldl_cons]
  exact foldl_hull2_hull2 bs (as.foldl hull2 a) b

theorem mem_sortDedup {X : List Str} {s : Str} :
    s ∈ X.dedup.insertionSort (· ≤ ·) ↔ s ∈ X := by
  rw [(List.perm_insertionSort _ _).mem_iff, List.mem_dedup]

theorem nodup_sortDedup (X : List Str) : (X.dedup.insertionSort (· ≤ ·)).Nodup :=
  (List.perm_insertionSort _ _).symm.nodup (List.nodup_dedup X)

theorem sortDedup_congr {X Y : List Str} (h : ∀ s, s ∈ X ↔ s ∈ Y) :
    X.dedup.insertionSort (· ≤ ·) = Y.dedup.insertionSort (· ≤ ·) := by
  refine List.eq_of_perm_of_sorted ?_ (List.sorted_insertionSort _ _)
    (List.sorted_insertionSort _ _)
  refine (List.perm_insertionSort _ _).trans (.trans ?_ (List.perm_insertionSort _ _).symm)
  refine (List.perm_ext_iff_of_nodup (List.nodup_dedup X) (List.nodup_dedup Y)).mpr ?_
  intro a
  rw [List.mem_dedup, List.mem_dedup]
  exact h a

theorem filter_beq_of_nodup {α : Type} [BEq α] [LawfulBEq α] {l : List α} (h : l.Nodup)
    {a : α} (ha : a ∈ l) : l.filter (fun x => x == a) = [a] := by
  induction l with
  | nil => cases ha
  | cons b l ih =>
    rcases List.mem_cons.mp ha with rfl | hmem
    · have hb : a ∉ l := (List.nodup_cons.mp h).1
      simp only [List.filter_cons, beq_self_eq_true, if_pos trivial]
      have : l.filter (fun x => x == a) = [] := by
        refine List.filter_eq_nil_iff.mpr ?_
        intro x hx
        simp only [beq_iff_eq]
        intro hxa
        exact hb (hxa ▸ hx)
      simp [this]
    · have hne : b ≠ a := by
        rintro rfl
        exact (List.nodup_cons.mp h).1 hmem
      have := ih (List.nodup_cons.mp h).2 hmem
      simp only [List.filter_cons]
      simp [hne, this]

theorem filter_beq_of_not_mem {α : Type} [BEq α] [LawfulBEq α] {l : List α} {a : α}
    (ha : a ∉ l) : l.filter (fun x => x == a) = [] := by
  refine List.filter_eq_nil_iff.mpr ?_
  intro x hx
  simp only [beq_iff_eq]
  intro hxa
  exact ha (hxa ▸ hx)

theorem keyEntries_append (g₁ g₂ : List (Date × List AssetEntry)) (d : Date) :
    keyEntries (g₁ ++ g₂) d = keyEntries g₁ d ++ keyEntries g₂ d := by
  simp [keyEntries, List.filter_append]

theorem filter_fst_beq_of_nodup {α β : Type} [BEq α] [LawfulBEq α]
    {l : List (α × β)} (h : (l.map Prod.fst).Nodup) {p : α × β} (hp : p ∈ l) :
    l.filter (fun q => q.1 == p.1) = [p] := by
  induction l with
  | nil => cases hp
  | cons b l ih =>
    have hb : b.1 ∉ l.map Prod.fst := (List.nodup_cons.mp h).1
    rcases List.mem_cons.mp hp with rfl | hmem
    · simp only [List.filter_cons, beq_self_eq_true, if_pos trivial]
      have : l.filter (fun q => q.1 == p.1) = [] := by
        refine List.filter_eq_nil_iff.mpr ?_
        intro x hx
        simp only [beq_iff_eq]
        intro hxa
        exact hb (hxa ▸ List.mem_map_of_mem Prod.fst hx)
      simp [this]
    · have hne : b.1 ≠ p.1 := by
        intro hfst
        exact hb (hfst ▸ List.mem_map_of_mem Prod.fst hmem)
      have := ih (List.nodup_cons.mp h).2 hmem
      simp only [List.filter_cons]
      simp [hne, this]

/-! ### `groupByDate` (the run's `defaultdict(list)`) -/

theorem groupAppend_keys (acc : List (Date × List AssetEntry)) (d : Date) (e : AssetEntry) :
    (groupAppend acc d e).map Prod.fst =
      if acc.any (fun p => p.1 == d) then acc.map Prod.fst
      else acc.map Prod.fst ++ [d] := by
  unfold groupAppend
  split
  · simp only [List.map_map]
    refine List.map_congr_left ?_
    intro p _
    simp only [Function.comp_apply]
    split <;> rfl
  · simp

theorem groupAppend_mem_keys {acc : List (Date × List AssetEntry)} {d : Date}
    {e : AssetEntry} {d' : Date} :
    d' ∈ (groupAppend acc d e).map Prod.fst ↔ d' ∈ acc.map Prod.fst ∨ d' = d := by
  rw [groupAppend_keys]
  split
  · rename_i hany
    constructor
    · exact Or.inl
    · rintro (h | rfl)
      · exact h
      · rcases List.any_eq_true.mp hany with ⟨p, hp, hpd⟩
        rw [beq_iff_eq] at hpd
        exact hpd ▸ List.mem_map_of_mem Prod.fst hp
  · simp

theorem groupAppend_nodup_keys {acc : List (Date × List AssetEntry)} {d : Date}
    {e : AssetEntry} (h : (acc.map Prod.fst).Nodup) :
    ((groupAppend acc d e).map Prod.fst).Nodup := by
  rw [groupAppend_keys]
  split
  · exact h
  · rename_i hany
    have hd : d ∉ acc.map Prod.fst := by
      intro hmem
      rcases List.mem_map.mp hmem with ⟨p, hp, hpd⟩
      have : acc.any (fun p => p.1 == d) = true :=
        List.any_eq_true.mpr ⟨p, hp, beq_iff_eq.mpr hpd⟩
      simp [this] at hany
    simp [List.nodup_append, h, hd]

theorem groupAppend_keyEntries {acc : List (Date × List AssetEntry)}
    (h : (acc.map Prod.fst).Nodup) (d : Date) (e : AssetEntry) (d' : Date) :
    keyEntries (groupAppend acc d e) d' =
      keyEntries acc d' ++ (if d == d' then [e] else []) := by
  unfold groupAppend
  split
  · rename_i hany
    have hfilter : (acc.map (fun p => if p.1 == d then (p.1, p.2 ++ [e]) else p)).filter
        (fun q => q.1 == d') =
        (acc.filter (fun q => q.1 == d')).map
          (fun p => if p.1 == d then (p.1, p.2 ++ [e]) else p) := by
      rw [List.filter_map]
      refine congrArg _ (List.filter_congr ?_)
      intro p _
      simp only [Function.comp_apply]
      split <;> rfl
    by_cases hdd : d = d'
    · subst hdd
      rcases List.any_eq_true.mp hany with ⟨p₀, hp₀, hpd⟩
      rw [beq_iff_eq] at hpd
      have h1 : acc.filter (fun q => q.1 == d) = [p₀] := by
        have := filter_fst_beq_of_nodup h hp₀
        rwa [hpd] at this
      simp only [keyEntries, hfilter, h1, List.map_cons, List.map_nil]
      simp [hpd]
    · have hdd' : (d == d') = false := beq_eq_false_iff_ne.mpr hdd
      have h2 : ∀ p ∈ acc.filter (fun q => q.1 == d'),
          (if p.1 == d then (p.1, p.2 ++ [e]) else p) = p := by
        intro p hp
        have : (p.1 == d') = true := (List.mem_filter.mp hp).2
        rw [beq_iff_eq] at this
        have : (p.1 == d) = false := by
          rw [this]
          exact beq_eq_false_iff_ne.mpr (fun hc => hdd hc.symm)
        simp [this]
      simp only [keyEntries, hfilter, List.map_congr_left h2, hdd']
      simp
  · rw [keyEntries_append]
    simp only [keyEntries, List.filter_cons, List.filter_nil]
    by_cases hdd : d = d'
    · subst hdd
      simp
    · have hdd' : (d == d') = false := beq_eq_false_iff_ne.mpr hdd
      simp [hdd']

theorem gbAux (items : List (Date × AssetEntry)) :
    ∀ (acc : List (Date × List AssetEntry)), (acc.map Prod.fst).Nodup →
      (((items.foldl (fun acc x => groupAppend acc x.1 x.2) acc).map Prod.fst).Nodup
      ∧ (∀ d, keyEntries (items.foldl (fun acc x => groupAppend acc x.1 x.2) acc) d =
          keyEntries acc d ++ (items.filter (fun x => x.1 == d)).map Prod.snd)
      ∧ (∀ d, d ∈ (items.foldl (fun acc x => groupAppend acc x.1 x.2) acc).map Prod.fst ↔
          d ∈ acc.map Prod.fst ∨ d ∈ items.map Prod.fst)) := by
  induction items with
  | nil => intro acc h; exact ⟨h, fun d => by simp, fun d => by simp⟩
  | cons x items ih =>
    intro acc h
    have h' := groupAppend_nodup_keys (d := x.1) (e := x.2) h
    obtain ⟨ihn, ihe, ihm⟩ := ih (groupAppend acc x.1 x.2) h'
    refine ⟨ihn, ?_, ?_⟩
    · intro d
      rw [List.foldl_cons]
      rw [ihe d, groupAppend_keyEntries h x.1 x.2 d, List.filter_cons]
      by_cases hxd : x.1 = d
      · have : (x.1 == d) = true := beq_iff_eq.mpr hxd
        simp [this, List.append_assoc]
      · have : (x.1 == d) = false := beq_eq_false_iff_ne.mpr hxd
        simp [this]
    · intro d
      rw [List.foldl_cons]
      rw [ihm d, groupAppend_mem_keys]
      simp only [List.map_cons, List.mem_cons]
      tauto

theorem gb_nodup_keys (r : List (Date × AssetEntry)) :
    ((groupByDate r).map Prod.fst).Nodup :=
  (gbAux r [] (by simp)).1

theorem gb_keyEntries (r : List (Date × AssetEntry)) (d : Date) :
    keyEntries (groupByDate r) d = (r.filter (fun x => x.1 == d)).map Prod.snd := by
  have h := ((gbAux r [] (by simp)).2.1) d
  simpa [groupByDate, keyEntries] using h

theorem gb_mem_keys (r : List (Date × AssetEntry)) (d : Date) :
    d ∈ (groupByDate r).map Prod.fst ↔ d ∈ r.map Prod.fst := by
  have h := ((gbAux r [] (by simp)).2.2) d
  simpa [groupByDate] using h

theorem gb_pair_snd {r : List (Date × AssetEntry)} {p : Date × List AssetEntry}
    (hp : p ∈ groupByDate r) :
    p.2 = (r.filter (fun x => x.1 == p.1)).map Prod.snd := by
  have h1 : (groupByDate r).filter (fun q => q.1 == p.1) = [p] :=
    filter_fst_beq_of_nodup (gb_nodup_keys r) hp
  have h2 := gb_keyEntries r p.1
  rw [keyEntries, h1] at h2
  simpa using h2

theorem gb_snd_ne_nil {r : List (Date × AssetEntry)} {p : Date × List AssetEntry}
    (hp : p ∈ groupByDate r) : p.2 ≠ [] := by
  rw [gb_pair_snd hp]
  have hk : p.1 ∈ r.map Prod.fst :=
    (gb_mem_keys r p.1).mp (List.mem_map_of_mem Prod.fst hp)
  rcases List.mem_map.mp hk with ⟨x, hx, hxd⟩
  intro hc
  have := List.map_eq_nil_iff.mp hc
  have hxmem : x ∈ r.filter (fun z => z.1 == p.1) :=
    List.mem_filter.mpr ⟨hx, beq_iff_eq.mpr hxd⟩
  rw [this] at hxmem
  cases hxmem

/-! ### Injectivity of the ISO day id on representable dates -/

theorem digitChar_inj {a b : Nat} (ha : a < 10) (hb : b < 10)
    (h : Nat.digitChar a = Nat.digitChar b) : a = b := by
  interval_cases a <;> interval_cases b <;> revert h <;> decide

theorem daysInMonth_le_31 (y m : Nat) : daysInMonth y m ≤ 31 := by
  unfold daysInMonth
  split
  · split <;> norm_num
  · split <;> norm_num

theorem pad2_inj {a b : Nat} (ha : a < 100) (hb : b < 100) (h : pad2 a = pad2 b) :
    a = b := by
  simp only [pad2, List.cons.injEq, and_true] at h
  obtain ⟨h1, h2⟩ := h
  have e1 := digitChar_inj (Nat.mod_lt _ (by norm_num)) (Nat.mod_lt _ (by norm_num)) h1
  have e2 := digitChar_inj (Nat.mod_lt _ (by norm_num)) (Nat.mod_lt _ (by norm_num)) h2
  omega

theorem pad4_inj {a b : Nat} (ha : a < 10000) (hb : b < 10000) (h : pad4 a = pad4 b) :
    a = b := by
  simp only [pad4, List.cons.injEq, and_true] at h
  obtain ⟨h1, h2, h3, h4⟩ := h
  have e1 := digitChar_inj (Nat.mod_lt _ (by norm_num)) (Nat.mod_lt _ (by norm_num)) h1
  have e2 := digitChar_inj (Nat.mod_lt _ (by norm_num)) (Nat.mod_lt _ (by norm_num)) h2
  have e3 := digitChar_inj (Nat.mod_lt _ (by norm_num)) (Nat.mod_lt _ (by norm_num)) h3
  have e4 := digitChar_inj (Nat.mod_lt _ (by norm_num)) (Nat.mod_lt _ (by norm_num)) h4
  omega

theorem validDate_bounds {d : Date} (h : validDate d = true) :
    1 ≤ d.year ∧ d.year ≤ 9999 ∧ 1 ≤ d.month ∧ d.month ≤ 12 ∧
      1 ≤ d.day ∧ d.day ≤ 31 := by
  simp only [validDate, Bool.and_eq_true, decide_eq_true_eq] at h
  have := daysInMonth_le_31 d.year d.month
  omega

theorem isoDate_inj {d₁ d₂ : Date} (h₁ : validDate d₁ = true) (h₂ : validDate d₂ = true)
    (h : isoDate d₁ = isoDate d₂) : d₁ = d₂ := by
  obtain ⟨hy1, hy1', hm1, hm1', hd1, hd1'⟩ := validDate_bounds h₁
  obtain ⟨hy2, hy2', hm2, hm2', hd2, hd2'⟩ := validDate_bounds h₂
  simp only [isoDate, pad4, pad2, List.cons_append, List.nil_append,
    List.cons.injEq, and_true] at h
  obtain ⟨a1, a2, a3, a4, _, b1, b2, _, c1, c2⟩ := h
  have ey : d₁.year = d₂.year := by
    refine pad4_inj (by omega) (by omega) ?_
    simp [pad4, a1, a2, a3, a4]
  have em : d₁.month = d₂.month := by
    refine pad2_inj (by omega) (by omega) ?_
    simp [pad2, b1, b2]
  have ed : d₁.day = d₂.day := by
    refine pad2_inj (by omega) (by omega) ?_
    simp [pad2, c1, c2]
  cases d₁; cases d₂
  simp_all

/-! ### Entry streams per day id -/

theorem entriesOn_append (I r : List (Date × AssetEntry)) (i : Str) :
    entriesOn (I ++ r) i = entriesOn I i ++ entriesOn r i := by
  simp [entriesOn, List.filter_append]

theorem entriesOn_eq_nil_of_not_mem {items : List (Date × AssetEntry)} {i : Str}
    (h : i ∉ items.map (fun x => isoDate x.1)) : entriesOn items i = [] := by
  unfold entriesOn
  have : items.filter (fun x => isoDate x.1 == i) = [] := by
    refine List.filter_eq_nil_iff.mpr ?_
    intro x hx
    simp only [beq_iff_eq]
    intro hxi
    exact h (hxi ▸ List.mem_map_of_mem _ hx)
  simp [this]

theorem filter_iso_ne_nil_of_mem {items : List (Date × AssetEntry)} {i : Str}
    (h : i ∈ items.map (fun x => isoDate x.1)) :
    items.filter (fun x => isoDate x.1 == i) ≠ [] := by
  rcases List.mem_map.mp h with ⟨x, hx, hxi⟩
  intro hc
  have hxmem : x ∈ items.filter (fun x => isoDate x.1 == i) :=
    List.mem_filter.mpr ⟨hx, beq_iff_eq.mpr hxi⟩
  rw [hc] at hxmem
  cases hxmem

theorem entriesOn_ne_nil_of_mem {items : List (Date × AssetEntry)} {i : Str}
    (h : i ∈ items.map (fun x => isoDate x.1)) : entriesOn items i ≠ [] := by
  unfold entriesOn
  intro hc
  exact filter_iso_ne_nil_of_mem h (List.map_eq_nil_iff.mp hc)

theorem firstDateOn_append_left {I : List (Date × AssetEntry)}
    (r : List (Date × AssetEntry)) {i : Str}
    (h : i ∈ I.map (fun x => isoDate x.1)) :
    firstDateOn (I ++ r) i = firstDateOn I i := by
  unfold firstDateOn
  rw [List.filter_append]
  rcases hf : I.filter (fun x => isoDate x.1 == i) with _ | ⟨x, xs⟩
  · exact absurd hf (filter_iso_ne_nil_of_mem h)
  · rw [hf, List.cons_append]

theorem firstDateOn_append_right {I : List (Date × AssetEntry)}
    (r : List (Date × AssetEntry)) {i : Str}
    (h : i ∉ I.map (fun x => isoDate x.1)) :
    firstDateOn (I ++ r) i = firstDateOn r i := by
  unfold firstDateOn
  rw [List.filter_append]
  have : I.filter (fun x => isoDate x.1 == i) = [] := by
    refine List.filter_eq_nil_iff.mpr ?_
    intro x hx
    simp only [beq_iff_eq]
    intro hxi
    exact h (hxi ▸ List.mem_map_of_mem _ hx)
  rw [this, List.nil_append]

theorem firstDateOn_spec {items : List (Date × AssetEntry)} {i : Str}
    (h : i ∈ items.map (fun x => isoDate x.1)) :
    firstDateOn items i ∈ items.map Prod.fst ∧ isoDate (firstDateOn items i) = i := by
  unfold firstDateOn
  rcases hf : items.filter (fun x => isoDate x.1 == i) with _ | ⟨x, xs⟩
  · exact absurd hf (filter_iso_ne_nil_of_mem h)
  · have hx : x ∈ items.filter (fun x => isoDate x.1 == i) := by
      rw [hf]; exact List.mem_cons_self x xs
    obtain ⟨hmem, hiso⟩ := List.mem_filter.mp hx
    rw [hf]
    exact ⟨List.mem_map_of_mem Prod.fst hmem, beq_iff_eq.mp hiso⟩

theorem mem_idsOfItems {items : List (Date × AssetEntry)} {s : Str} :
    s ∈ idsOfItems items ↔ s ∈ items.map (fun x => isoDate x.1) :=
  mem_sortDedup

theorem nodup_idsOfItems (items : List (Date × AssetEntry)) : (idsOfItems items).Nodup :=
  nodup_sortDedup _

/-! ### Row-level computation lemmas -/

theorem row_ext {r₁ r₂ : Row} (h1 : r₁.id = r₂.id) (h2 : r₁.datetime = r₂.datetime)
    (h3 : r₁.geometry = r₂.geometry) (h4 : r₁.bbox = r₂.bbox)
    (h5 : r₁.assets = r₂.assets) (h6 : r₁.links = r₂.links)
    (h7 : r₁.properties = r₂.properties) : r₁ = r₂ := by
  cases r₁; cases r₂; simp_all

theorem create_id (d : Date) (i : Str) (es : List AssetEntry) (t : Str) :
    (create_stac_item d i es t).id = i := by
  cases es <;> rfl

theorem create_datetime (d : Date) (i : Str) (es : List AssetEntry) (t : Str) :
    (create_stac_item d i es t).datetime = d := by
  cases es <;> rfl

theorem create_geometry_cons (d : Date) (i : Str) (e : AssetEntry)
    (es : List AssetEntry) (t : Str) :
    (create_stac_item d i (e :: es) t).geometry =
      some (hullList e.geometry (es.map (·.geometry))) := rfl

theorem create_links_cons (d : Date) (i : Str) (e : AssetEntry)
    (es : List AssetEntry) (t : Str) :
    (create_stac_item d i (e :: es) t).links = .val [] := rfl

theorem create_properties_cons (d : Date) (i : Str) (e : AssetEntry)
    (es : List AssetEntry) (t : Str) :
    (create_stac_item d i (e :: es) t).properties = .absent := rfl

theorem rowKept_create {d : Date} {i : Str} {es : List AssetEntry} {t : Str}
    (h : es ≠ []) : rowKept (create_stac_item d i es t) = true := by
  cases es with
  | nil => exact absurd rfl h
  | cons e es => rfl

theorem rowAssetVals_create {d : Date} {i : Str} {es : List AssetEntry} {t : Str}
    (h : es ≠ []) :
    rowAssetVals (create_stac_item d i es t) =
      es.map (fun e => { href := e.url, atype := t, roles := [str "data"] }) := by
  cases es with
  | nil => exact absurd rfl h
  | cons e es =>
    show (rekeyAssets _).map Prod.snd = _
    rw [rekeyAssets_map_snd]

theorem rowAssetVals_canonicalRow (su : Str) (I : List (Date × AssetEntry)) (i : Str) :
    rowAssetVals (canonicalRow su I i) = (entriesOn I i).map entryAsset := by
  show (rekeyAssets _).map Prod.snd = _
  rw [rekeyAssets_map_snd]

theorem rowLinkList_canonicalRow (su : Str) (I : List (Date × AssetEntry)) (i : Str) :
    rowLinkList (canonicalRow su I i) = dayLinks su I i := rfl

theorem rowKept_canonicalRow (su : Str) (I : List (Date × AssetEntry)) (i : Str) :
    rowKept (canonicalRow su I i) = true := rfl

theorem canonicalRow_id (su : Str) (I : List (Date × AssetEntry)) (i : Str) :
    (canonicalRow su I i).id = i := rfl

/-- Applying `add_style_link` to a merged row all of whose present links are style
links: they are dropped and, when a style URL is configured, replaced by the
single fresh style link for the row's current asset keys. -/
theorem add_style_link_all_style {su : Str} {row : Row} {avs : List (Str × Asset)}
    {ls : List Link} (hassets : row.assets = .val avs) (hav : avs ≠ [])
    (hlinks : row.links = .val ls)
    (hls : ∀ l ∈ ls, l.rel = some (str "style")) :
    add_style_link su row =
      if su = [] then ls
      else [{ rel := some (str "style"), href := su,
              ltype := str "text/vector-styles", assetKeys := avs.map Prod.fst }] := by
  have hrl : rowLinkList row = ls := by rw [rowLinkList, hlinks]
  have hra : rowAssetsDict row = avs := by rw [rowAssetsDict, hassets]
  unfold add_style_link
  split
  · rw [hrl]
  · rw [hra, hrl]
    have hkeys : avs.map Prod.fst ≠ [] := by
      intro hc
      exact hav (List.map_eq_nil_iff.mp hc)
    rw [if_neg hkeys]
    have hdrop : ls.filter (fun link => !(link.rel == some (str "style"))) = [] := by
      refine List.filter_eq_nil_iff.mpr ?_
      intro l hl
      rw [hls l hl]
      simp
    rw [hdrop, List.nil_append]

/-! ### Locating a day id inside the aggregation-stage merge input -/

theorem iso_beq {dx d₀ : Date} (hx : validDate dx = true) (h0 : validDate d₀ = true)
    {i : Str} (hi : isoDate d₀ = i) : (isoDate dx == i) = (dx == d₀) := by
  by_cases hpd : dx = d₀
  · subst hpd
    simp [hi]
  · have hne : isoDate dx ≠ i := fun hc => hpd (isoDate_inj hx h0 (by rw [hc, hi]))
    rw [beq_eq_false_iff_ne.mpr hne, beq_eq_false_iff_ne.mpr hpd]

theorem canonicalTable_filter_id (su : Str) (I : List (Date × AssetEntry)) (i : Str) :
    (canonicalTable su I).filter (fun row => row.id == i) =
      if i ∈ I.map (fun x => isoDate x.1) then [canonicalRow su I i] else [] := by
  unfold canonicalTable
  rw [List.filter_map]
  have hc : (idsOfItems I).filter ((fun row => row.id == i) ∘ canonicalRow su I) =
      (idsOfItems I).filter (fun j => j == i) :=
    List.filter_congr (fun j _ => rfl)
  rw [hc]
  by_cases hm : i ∈ I.map (fun x => isoDate x.1)
  · rw [filter_beq_of_nodup (nodup_idsOfItems I) (mem_idsOfItems.mpr hm), if_pos hm]
    rfl
  · rw [filter_beq_of_not_mem (fun hc' => hm (mem_idsOfItems.mp hc')), if_neg hm]
    rfl

theorem dailyRecords_filter_id {r : List (Date × AssetEntry)}
    (hval : ∀ x ∈ r, validDate x.1 = true) (i : Str) :
    (dailyRecords r).filter (fun row => row.id == i) =
      if i ∈ r.map (fun x => isoDate x.1) then
        [create_stac_item (firstDateOn r i) i (entriesOn r i) GEOJSON_TYPE]
      else [] := by
  unfold dailyRecords
  rw [List.filter_map]
  have hcomp : (groupByDate r).filter
      ((fun row => row.id == i) ∘ (fun p => create_stac_item p.1 (isoDate p.1) p.2 GEOJSON_TYPE)) =
      (groupByDate r).filter (fun p => isoDate p.1 == i) := by
    refine List.filter_congr ?_
    intro p _
    simp [Function.comp, create_id]
  rw [hcomp]
  have hvalkey : ∀ p ∈ groupByDate r, validDate p.1 = true := by
    intro p hp
    have hp1 : p.1 ∈ r.map Prod.fst :=
      (gb_mem_keys r p.1).mp (List.mem_map_of_mem Prod.fst hp)
    rcases List.mem_map.mp hp1 with ⟨x, hx, hxe⟩
    exact hxe ▸ hval x hx
  by_cases hm : i ∈ r.map (fun x => isoDate x.1)
  · obtain ⟨hd₀mem, hd₀iso⟩ := firstDateOn_spec hm
    have h0val : validDate (firstDateOn r i) = true := by
      rcases List.mem_map.mp hd₀mem with ⟨x, hx, hxe⟩
      exact hxe ▸ hval x hx
    have hcong : (groupByDate r).filter (fun p => isoDate p.1 == i) =
        (groupByDate r).filter (fun p => p.1 == firstDateOn r i) := by
      refine List.filter_congr ?_
      intro p hp
      exact iso_beq (hvalkey p hp) h0val hd₀iso
    rw [hcong]
    have hkey : firstDateOn r i ∈ (groupByDate r).map Prod.fst :=
      (gb_mem_keys r _).mpr hd₀mem
    rcases List.mem_map.mp hkey with ⟨p₀, hp₀, hp₀1⟩
    have hfilter : (groupByDate r).filter (fun q => q.1 == firstDateOn r i) = [p₀] := by
      have := filter_fst_beq_of_nodup (gb_nodup_keys r) hp₀
      rwa [hp₀1] at this
    rw [hfilter, if_pos hm]
    simp only [List.map_cons, List.map_nil]
    have h3 : p₀.2 = entriesOn r i := by
      rw [gb_pair_snd hp₀, entriesOn]
      have : r.filter (fun x => x.1 == p₀.1) = r.filter (fun x => isoDate x.1 == i) := by
        refine List.filter_congr ?_
        intro x hx
        rw [hp₀1]
        exact (iso_beq (hval x hx) h0val hd₀iso).symm
      rw [this]
    have h2 : isoDate p₀.1 = i := by rw [hp₀1, hd₀iso]
    rw [h3, h2, hp₀1]
  · have hnil : (groupByDate r).filter (fun p => isoDate p.1 == i) = [] := by
      refine List.filter_eq_nil_iff.mpr ?_
      intro p hp
      have hp1 : p.1 ∈ r.map Prod.fst :=
        (gb_mem_keys r p.1).mp (List.mem_map_of_mem Prod.fst hp)
      intro hc
      rcases List.mem_map.mp hp1 with ⟨x, hx, hxe⟩
      exact hm (List.mem_map.mpr ⟨x, hx, by rw [hxe]; exact beq_iff_eq.mp hc⟩)
    rw [hnil, List.map_nil, if_neg hm]

/-! ### Aggregation-stage input facts -/

theorem rowLinkList_create {d : Date} {i : Str} {es : List AssetEntry} {t : Str}
    (h : es ≠ []) : rowLinkList (create_stac_item d i es t) = [] := by
  cases es with
  | nil => exact absurd rfl h
  | cons e es => rfl

theorem rekeyAssets_ne_nil {as_ : List Asset} (h : as_ ≠ []) : rekeyAssets as_ ≠ [] := by
  intro hc
  have := rekeyAssets_length as_
  rw [hc] at this
  exact h (List.length_eq_zero.mp this.symm)

theorem dayAssets_ne_nil {items : List (Date × AssetEntry)} {i : Str}
    (h : entriesOn items i ≠ []) : dayAssets items i ≠ [] := by
  refine rekeyAssets_ne_nil ?_
  intro hc
  exact h (List.map_eq_nil_iff.mp hc)

theorem dayLinks_of_empty {su : Str} (items : List (Date × AssetEntry)) (i : Str)
    (h : su = []) : dayLinks su items i = [] := by
  unfold dayLinks
  rw [if_pos h]

theorem dayLinks_rel {su : Str} {items : List (Date × AssetEntry)} {i : Str} :
    ∀ l ∈ dayLinks su items i, l.rel = some (str "style") := by
  intro l hl
  unfold dayLinks at hl
  split at hl
  · cases hl
  · rcases List.mem_singleton.mp hl with rfl
    rfl

theorem mergeGroup_id (i : Str) (G : List Row) : (mergeGroup i G).id = i := rfl

theorem mergeGroup_datetime (i : Str) (G : List Row) :
    (mergeGroup i G).datetime = headDate G := rfl

theorem mergeGroup_geometry (i : Str) (G : List Row) :
    (mergeGroup i G).geometry = mergeGeoms (G.map (fun row => row.geometry)) := rfl

theorem mergeGroup_bbox (i : Str) (G : List Row) :
    (mergeGroup i G).bbox =
      some (match mergeGeoms (G.map (fun row => row.geometry)) with
            | some b => boundsList b
            | none => []) := rfl

theorem mergeGroup_assets (i : Str) (G : List Row) :
    (mergeGroup i G).assets =
      .val (rekeyAssets (List.flatten (G.map rowAssetVals))) := rfl

theorem mergeGroup_links (i : Str) (G : List Row) :
    (mergeGroup i G).links = .val (List.flatten (G.map rowLinkList)) := rfl

theorem mergeGroup_properties (i : Str) (G : List Row) :
    (mergeGroup i G).properties = .absent := rfl

/-- The styling pass on a merged daily row whose pre-existing links are all
style links produces exactly the canonical day links. -/
theorem styled_links_eq {su : Str} {row : Row} {items' : List (Date × AssetEntry)}
    {i : Str} {ls : List Link}
    (hassets : row.assets = .val (dayAssets items' i))
    (hne : entriesOn items' i ≠ [])
    (hlinks : row.links = .val ls)
    (hls : ∀ l ∈ ls, l.rel = some (str "style"))
    (hempty : su = [] → ls = []) :
    add_style_link su row = dayLinks su items' i := by
  rw [add_style_link_all_style hassets (dayAssets_ne_nil hne) hlinks hls]
  split
  · rename_i hsu
    rw [hempty hsu, dayLinks_of_empty _ _ hsu]
  · rename_i hsu
    unfold dayLinks
    rw [if_neg hsu]

theorem canonicalTable_map_id (su : Str) (I : List (Date × AssetEntry)) :
    (canonicalTable su I).map Row.id = idsOfItems I := by
  unfold canonicalTable
  rw [List.map_map]
  calc (idsOfItems I).map (Row.id ∘ canonicalRow su I)
      = (idsOfItems I).map (fun j => j) := List.map_congr_left (fun j _ => rfl)
    _ = idsOfItems I := List.map_id _

theorem dailyRecords_map_id (r : List (Date × AssetEntry)) :
    (dailyRecords r).map Row.id = (groupByDate r).map (fun p => isoDate p.1) := by
  unfold dailyRecords
  rw [List.map_map]
  exact List.map_congr_left (fun p _ => create_id p.1 (isoDate p.1) p.2 GEOJSON_TYPE)

theorem mem_groupKeys_iso {r : List (Date × AssetEntry)} {s : Str} :
    s ∈ (groupByDate r).map (fun p => isoDate p.1) ↔
      s ∈ r.map (fun x => isoDate x.1) := by
  constructor
  · intro hmem
    rcases List.mem_map.mp hmem with ⟨p, hp, rfl⟩
    have hk : p.1 ∈ r.map Prod.fst :=
      (gb_mem_keys r p.1).mp (List.mem_map_of_mem Prod.fst hp)
    rcases List.mem_map.mp hk with ⟨x, hx, hxe⟩
    exact List.mem_map.mpr ⟨x, hx, by rw [hxe]⟩
  · intro hmem
    rcases List.mem_map.mp hmem with ⟨x, hx, rfl⟩
    have hk : x.1 ∈ (groupByDate r).map Prod.fst :=
      (gb_mem_keys r x.1).mpr (List.mem_map_of_mem Prod.fst hx)
    rcases List.mem_map.mp hk with ⟨p, hp, hpe⟩
    exact List.mem_map.mpr ⟨p, hp, by rw [hpe]⟩

theorem kept_stage_input (su : Str) (I r : List (Date × AssetEntry)) :
    (canonicalTable su I ++ dailyRecords r).filter rowKept =
      canonicalTable su I ++ dailyRecords r := by
  refine List.filter_eq_self.mpr ?_
  intro row hrow
  rcases List.mem_append.mp hrow with h | h
  · unfold canonicalTable at h
    rcases List.mem_map.mp h with ⟨j, _, rfl⟩
    rfl
  · unfold dailyRecords at h
    rcases List.mem_map.mp h with ⟨p, hp, rfl⟩
    exact rowKept_create (gb_snd_ne_nil hp)

theorem sortedIds_stage_input (su : Str) (I r : List (Date × AssetEntry)) :
    sortedIds (canonicalTable su I ++ dailyRecords r) = idsOfItems (I ++ r) := by
  unfold sortedIds idsOfItems
  apply sortDedup_congr
  intro s
  rw [List.map_append, List.mem_append, canonicalTable_map_id, dailyRecords_map_id,
    List.map_append, List.mem_append, mem_idsOfItems, mem_groupKeys_iso]

/-! ### The merged, styled record of one day id -/

theorem mergeGeoms_pair (A B : Box) : mergeGeoms [some A, some B] = some (hull2 A B) := rfl

theorem mergeGeoms_single (A : Box) : mergeGeoms [some A] = some A := rfl

theorem rowAssetVals_create_geojson {d : Date} {i : Str} {es : List AssetEntry}
    (h : es ≠ []) :
    rowAssetVals (create_stac_item d i es GEOJSON_TYPE) = es.map entryAsset := by
  rw [rowAssetVals_create h]
  rfl

theorem styled_mergeGroup_canonical {su : Str} {I r : List (Date × AssetEntry)} {i : Str}
    (hi : i ∈ (I ++ r).map (fun x => isoDate x.1)) (G : List Row)
    (hG : G = (if i ∈ I.map (fun x => isoDate x.1) then [canonicalRow su I i] else []) ++
      (if i ∈ r.map (fun x => isoDate x.1) then
        [create_stac_item (firstDateOn r i) i (entriesOn r i) GEOJSON_TYPE] else [])) :
    { mergeGroup i G with links := CellVal.val (add_style_link su (mergeGroup i G)) } =
      canonicalRow su (I ++ r) i := by
  by_cases hmI : i ∈ I.map (fun x => isoDate x.1) <;>
    by_cases hmr : i ∈ r.map (fun x => isoDate x.1)
  · -- present in both the accumulated stream and the new run
    rw [if_pos hmI, if_pos hmr] at hG
    rcases ha : entriesOn I i with _ | ⟨a, as⟩
    · exact absurd ha (entriesOn_ne_nil_of_mem hmI)
    rcases hb : entriesOn r i with _ | ⟨b, bs⟩
    · exact absurd hb (entriesOn_ne_nil_of_mem hmr)
    have hEnt : entriesOn (I ++ r) i = a :: (as ++ b :: bs) := by
      rw [entriesOn_append, ha, hb, List.cons_append]
    have hcg : (canonicalRow su I i).geometry =
        some (hullList a.geometry (as.map (fun e => e.geometry))) := by
      show dayGeom I i = _
      unfold dayGeom
      rw [ha]
      simp only [List.map_cons]
    have hkg : (create_stac_item (firstDateOn r i) i (entriesOn r i) GEOJSON_TYPE).geometry =
        some (hullList b.geometry (bs.map (fun e => e.geometry))) := by
      rw [hb]
      exact create_geometry_cons _ _ _ _ _
    have hgeo : dayGeom (I ++ r) i =
        some (hull2 (hullList a.geometry (as.map (fun e => e.geometry)))
          (hullList b.geometry (bs.map (fun e => e.geometry)))) := by
      unfold dayGeom
      rw [hEnt]
      simp only [List.map_cons, List.map_append]
      rw [hullList_append]
    have hgeq : mergeGeoms (G.map (fun row => row.geometry)) = dayGeom (I ++ r) i := by
      rw [hG]
      simp only [List.cons_append, List.nil_append, List.map_cons, List.map_nil]
      rw [hcg, hkg, mergeGeoms_pair, hgeo]
    have hflat : List.flatten (G.map rowAssetVals) = (entriesOn (I ++ r) i).map entryAsset := by
      rw [hG]
      simp only [List.cons_append, List.nil_append, List.map_cons, List.map_nil]
      rw [rowAssetVals_canonicalRow, rowAssetVals_create_geojson (by rw [hb]; simp)]
      simp only [List.flatten_cons, List.flatten_nil, List.append_nil]
      rw [← List.map_append, ← entriesOn_append]
    have hma : (mergeGroup i G).assets = .val (dayAssets (I ++ r) i) := by
      rw [mergeGroup_assets, hflat]
      rfl
    have hml : (mergeGroup i G).links = .val (dayLinks su I i) := by
      rw [mergeGroup_links, hG]
      simp only [List.cons_append, List.nil_append, List.map_cons, List.map_nil]
      rw [rowLinkList_canonicalRow, rowLinkList_create (by rw [hb]; simp)]
      simp
    have hstyle : add_style_link su (mergeGroup i G) = dayLinks su (I ++ r) i :=
      styled_links_eq hma (by rw [hEnt]; simp) hml dayLinks_rel
        (fun hsu => dayLinks_of_empty _ _ hsu)
    refine row_ext ?_ ?_ ?_ ?_ ?_ ?_ ?_
    · rfl
    · show headDate G = firstDateOn (I ++ r) i
      rw [hG, firstDateOn_append_left r hmI]
      rfl
    · exact hgeq
    · show (some (match mergeGeoms (G.map (fun row => row.geometry)) with
          | some b => boundsList b | none => []) : Option (List Int)) = _
      rw [hgeq]
      rfl
    · exact hma
    · show CellVal.val (add_style_link su (mergeGroup i G)) = _
      rw [hstyle]
      rfl
    · rfl
  · -- present only in the accumulated stream
    rw [if_pos hmI, if_neg hmr] at hG
    have hbr : entriesOn r i = [] := entriesOn_eq_nil_of_not_mem hmr
    rcases ha : entriesOn I i with _ | ⟨a, as⟩
    · exact absurd ha (entriesOn_ne_nil_of_mem hmI)
    have hEnt : entriesOn (I ++ r) i = a :: as := by
      rw [entriesOn_append, ha, hbr, List.append_nil]
    have hcg : (canonicalRow su I i).geometry =
        some (hullList a.geometry (as.map (fun e => e.geometry))) := by
      show dayGeom I i = _
      unfold dayGeom
      rw [ha]
      simp only [List.map_cons]
    have hgeo : dayGeom (I ++ r) i =
        some (hullList a.geometry (as.map (fun e => e.geometry))) := by
      unfold dayGeom
      rw [hEnt]
      simp only [List.map_cons]
    have hgeq : mergeGeoms (G.map (fun row => row.geometry)) = dayGeom (I ++ r) i := by
      rw [hG]
      simp only [List.append_nil, List.map_cons, List.map_nil]
      rw [hcg, mergeGeoms_single, hgeo]
    have hflat : List.flatten (G.map rowAssetVals) = (entriesOn (I ++ r) i).map entryAsset := by
      rw [hG]
      simp only [List.append_nil, List.map_cons, List.map_nil]
      rw [rowAssetVals_canonicalRow]
      simp only [List.flatten_cons, List.flatten_nil, List.append_nil]
      rw [entriesOn_append, hbr, List.append_nil]
    have hma : (mergeGroup i G).assets = .val (dayAssets (I ++ r) i) := by
      rw [mergeGroup_assets, hflat]
      rfl
    have hml : (mergeGroup i G).links = .val (dayLinks su I i) := by
      rw [mergeGroup_links, hG]
      simp only [List.append_nil, List.map_cons, List.map_nil]
      rw [rowLinkList_canonicalRow]
      simp
    have hstyle : add_style_link su (mergeGroup i G) = dayLinks su (I ++ r) i :=
      styled_links_eq hma (by rw [hEnt]; simp) hml dayLinks_rel
        (fun hsu => dayLinks_of_empty _ _ hsu)
    refine row_ext ?_ ?_ ?_ ?_ ?_ ?_ ?_
    · rfl
    · show headDate G = firstDateOn (I ++ r) i
      rw [hG, firstDateOn_append_left r hmI]
      rfl
    · exact hgeq
    · show (some (match mergeGeoms (G.map (fun row => row.geometry)) with
          | some b => boundsList b | none => []) : Option (List Int)) = _
      rw [hgeq]
      rfl
    · exact hma
    · show CellVal.val (add_style_link su (mergeGroup i G)) = _
      rw [hstyle]
      rfl
    · rfl
  · -- present only in the new run
    rw [if_neg hmI, if_pos hmr] at hG
    have hbI : entriesOn I i = [] := entriesOn_eq_nil_of_not_mem hmI
    rcases hb : entriesOn r i with _ | ⟨b, bs⟩
    · exact absurd hb (entriesOn_ne_nil_of_mem hmr)
    have hEnt : entriesOn (I ++ r) i = b :: bs := by
      rw [entriesOn_append, hbI, List.nil_append, hb]
    have hkg : (create_stac_item (firstDateOn r i) i (entriesOn r i) GEOJSON_TYPE).geometry =
        some (hullList b.geometry (bs.map (fun e => e.geometry))) := by
      rw [hb]
      exact create_geometry_cons _ _ _ _ _
    have hgeo : dayGeom (I ++ r) i =
        some (hullList b.geometry (bs.map (fun e => e.geometry))) := by
      unfold dayGeom
      rw [hEnt]
      simp only [List.map_cons]
    have hgeq : mergeGeoms (G.map (fun row => row.geometry)) = dayGeom (I ++ r) i := by
      rw [hG]
      simp only [List.nil_append, List.map_cons, List.map_nil]
      rw [hkg, mergeGeoms_single, hgeo]
    have hflat : List.flatten (G.map rowAssetVals) = (entriesOn (I ++ r) i).map entryAsset := by
      rw [hG]
      simp only [List.nil_append, List.map_cons, List.map_nil]
      rw [rowAssetVals_create_geojson (by rw [hb]; simp)]
      simp only [List.flatten_cons, List.flatten_nil, List.append_nil]
      rw [entriesOn_append, hbI, List.nil_append]
    have hma : (mergeGroup i G).assets = .val (dayAssets (I ++ r) i) := by
      rw [mergeGroup_assets, hflat]
      rfl
    have hml : (mergeGroup i G).links = .val ([] : List Link) := by
      rw [mergeGroup_links, hG]
      simp only [List.nil_append, List.map_cons, List.map_nil]
      rw [rowLinkList_create (by rw [hb]; simp)]
      simp
    have hstyle : add_style_link su (mergeGroup i G) = dayLinks su (I ++ r) i :=
      styled_links_eq hma (by rw [hEnt]; simp) hml (by intro l hl; cases hl)
        (fun _ => rfl)
    refine row_ext ?_ ?_ ?_ ?_ ?_ ?_ ?_
    · rfl
    · show headDate G = firstDateOn (I ++ r) i
      rw [hG, firstDateOn_append_right r hmI]
      exact create_datetime _ _ _ _
    · exact hgeq
    · show (some (match mergeGeoms (G.map (fun row => row.geometry)) with
          | some b => boundsList b | none => []) : Option (List Int)) = _
      rw [hgeq]
      rfl
    · exact hma
    · show CellVal.val (add_style_link su (mergeGroup i G)) = _
      rw [hstyle]
      rfl
    · rfl
  · -- impossible: the id comes from somewhere
    exfalso
    rcases List.mem_map.mp hi with ⟨x, hx, rfl⟩
    rcases List.mem_append.mp hx with h | h
    · exact hmI (List.mem_map_of_mem _ h)
    · exact hmr (List.mem_map_of_mem _ h)

/-! ### The aggregation stage as a canonical-form rewriter -/

theorem aggregationStage_canonical (su : Str) {I r : List (Date × AssetEntry)}
    (hvr : ∀ x ∈ r, validDate x.1 = true) :
    aggregationStage su (canonicalTable su I) r = canonicalTable su (I ++ r) := by
  simp only [aggregationStage, applyStyleAll, merge_items_per_day]
  rw [kept_stage_input, sortedIds_stage_input, List.map_map]
  refine List.map_congr_left ?_
  intro i hi
  have hi' : i ∈ (I ++ r).map (fun x => isoDate x.1) := mem_idsOfItems.mp hi
  refine styled_mergeGroup_canonical hi' _ ?_
  rw [List.filter_append, canonicalTable_filter_id, dailyRecords_filter_id hvr]

theorem canonicalTable_nil (su : Str) : canonicalTable su [] = [] := rfl

theorem dailyAfterRuns_eq_canonical (su : Str)
    (runs : List (List (Date × AssetEntry)))
    (hval : ∀ run ∈ runs, ∀ x ∈ run, validDate x.1 = true) :
    dailyAfterRuns su runs = canonicalTable su runs.flatten := by
  suffices h : ∀ (rs : List (List (Date × AssetEntry))),
      (∀ run ∈ rs, ∀ x ∈ run, validDate x.1 = true) →
      ∀ (I : List (Date × AssetEntry)),
        rs.foldl (fun daily run => aggregationStage su daily run) (canonicalTable su I) =
          canonicalTable su (I ++ rs.flatten) by
    have h0 := h runs hval []
    rw [List.nil_append] at h0
    exact h0
  intro rs
  induction rs with
  | nil =>
    intro _ I
    simp
  | cons run rs ih =>
    intro hv I
    rw [List.foldl_cons,
      aggregationStage_canonical su (fun x hx => hv run (List.mem_cons_self _ _) x hx),
      ih (fun rr hrr x hx => hv rr (List.mem_cons_of_mem _ hrr) x hx) (I ++ run),
      List.flatten_cons, List.append_assoc]

theorem recomputeDaily_eq_canonical (su : Str) {items : List (Date × AssetEntry)}
    (hval : ∀ x ∈ items, validDate x.1 = true) :
    recomputeDaily su items = canonicalTable su items := by
  unfold recomputeDaily
  have h := aggregationStage_canonical su (I := []) hval
  rw [canonicalTable_nil, List.nil_append] at h
  exact h

/-! ### Leftmost-match characterization of the date regex -/

theorem reSearchEight_cons (c : Char) (cs : Str) :
    reSearchEight (c :: cs) =
      if digitWindow8 (c :: cs) then some ((c :: cs).take 8)
      else reSearchEight cs := rfl

theorem reSearchEight_leftmost (p ds s : Str) (hlen : ds.length = 8)
    (hdig : ∀ c ∈ ds, c.isDigit = true)
    (hleft : ∀ j, j < p.length → ¬ digitWindow8 ((p ++ (ds ++ s)).drop j)) :
    reSearchEight (p ++ (ds ++ s)) = some ds := by
  induction p with
  | nil =>
    rcases ds with _ | ⟨c, cs⟩
    · simp at hlen
    have htake : ((c :: cs) ++ s).take 8 = c :: cs := by
      rw [← hlen]
      exact List.take_left _ _
    rw [List.nil_append, List.cons_append, reSearchEight_cons]
    rw [if_pos]
    · rw [← List.cons_append, htake]
    · refine ⟨by rw [← List.cons_append, htake, hlen], ?_⟩
      rw [← List.cons_append, htake]
      exact List.all_eq_true.mpr (fun c hc => hdig c hc)
  | cons c p ih =>
    rw [List.cons_append, reSearchEight_cons, if_neg]
    · refine ih ?_
      intro j hj
      have := hleft (j + 1) (by simpa using Nat.succ_lt_succ hj)
      rwa [List.cons_append, List.drop_succ_cons] at this
    · have := hleft 0 (by simp)
      rwa [List.drop_zero, List.cons_append] at this

theorem reSearchEight_none (t : Str)
    (h : ∀ j, j < t.length → ¬ digitWindow8 (t.drop j)) :
    reSearchEight t = none := by
  induction t with
  | nil => rfl
  | cons c cs ih =>
    rw [reSearchEight_cons, if_neg]
    · refine ih ?_
      intro j hj
      have := h (j + 1) (by simpa using Nat.succ_lt_succ hj)
      rwa [List.drop_succ_cons] at this
    · have := h 0 (by simp)
      rwa [List.drop_zero] at this

/-! ### Merge output per id, and discovery acceptance -/

theorem mem_sortedIds {rs : List Row} {i : Str} :
    i ∈ sortedIds rs ↔ i ∈ rs.map Row.id := mem_sortDedup

theorem nodup_sortedIds (rs : List Row) : (sortedIds rs).Nodup := nodup_sortDedup _

theorem merge_filter_id (df : List Row) (i : Str) :
    (merge_items_per_day df).filter (fun row => row.id == i) =
      if (df.filter rowKept).any (fun row => row.id == i) then
        [mergeGroup i ((df.filter rowKept).filter (fun row => row.id == i))]
      else [] := by
  simp only [merge_items_per_day]
  rw [List.filter_map]
  have hc : (sortedIds (df.filter rowKept)).filter
      ((fun row => row.id == i) ∘
        (fun j => mergeGroup j ((df.filter rowKept).filter (fun row => row.id == j)))) =
      (sortedIds (df.filter rowKept)).filter (fun j => j == i) :=
    List.filter_congr (fun j _ => rfl)
  rw [hc]
  have hmemany : (df.filter rowKept).any (fun row => row.id == i) = true ↔
      i ∈ (df.filter rowKept).map Row.id := by
    rw [List.any_eq_true]
    constructor
    · rintro ⟨row, hrow, hid⟩
      exact List.mem_map.mpr ⟨row, hrow, beq_iff_eq.mp hid⟩
    · intro h
      rcases List.mem_map.mp h with ⟨row, hrow, hid⟩
      exact ⟨row, hrow, beq_iff_eq.mpr hid⟩
  by_cases hmem : (df.filter rowKept).any (fun row => row.id == i) = true
  · rw [if_pos hmem]
    rw [filter_beq_of_nodup (nodup_sortedIds _) (mem_sortedIds.mpr (hmemany.mp hmem))]
    rfl
  · rw [if_neg hmem]
    rw [filter_beq_of_not_mem (fun hc' => hmem (hmemany.mpr (mem_sortedIds.mp hc')))]
    rfl

theorem merge_restrict_kept (df : List Row) :
    merge_items_per_day df = merge_items_per_day (df.filter rowKept) := by
  have h2 : (df.filter rowKept).filter rowKept = df.filter rowKept := by
    rw [List.filter_filter]
    exact List.filter_congr (fun a _ => Bool.and_self (rowKept a))
  simp only [merge_items_per_day]
  rw [h2]

theorem acceptFolder_true_iff (s e : Date) (ids : List Str) (path : Str) :
    acceptFolder s e ids path = true ↔
      (should_skip (lastSeg path) = false ∧
        ids.any (fun i => i == lastSeg path) = false ∧
        ∃ d, extract_date (lastSeg path) = some d ∧
          (dateLe s d && dateLe d e) = true) := by
  simp only [acceptFolder]
  split
  · rename_i hcond
    rw [Bool.or_eq_true] at hcond
    constructor
    · intro h
      cases h
    · rintro ⟨h1, h2, _⟩
      rcases hcond with h | h
      · rw [h1] at h
        cases h
      · rw [h2] at h
        cases h
  · rename_i hcond
    rw [Bool.or_eq_true] at hcond
    push_neg at hcond
    have h1 : should_skip (lastSeg path) = false := Bool.eq_false_iff.mpr hcond.1
    have h2 : ids.any (fun i => i == lastSeg path) = false := Bool.eq_false_iff.mpr hcond.2
    rcases hx : extract_date (lastSeg path) with _ | d
    · simp [h1, h2]
    · constructor
      · intro h
        exact ⟨h1, h2, d, rfl, h⟩
      · rintro ⟨_, _, d', hd', hle⟩
        rw [Option.some.injEq] at hd'
        rwa [hd']

/-! ## Claim theorems -/

/-- C6: for every date, id, and media type, an item built by
`create_stac_item` from an empty asset list has null geometry, null bbox, an
empty asset mapping, an empty link list, and `properties.invalid = true`;
and every item `create_stac_item` produces with an empty asset mapping is
exactly that placeholder (so every pipeline item with empty assets
satisfies the invariant). -/
theorem spec_C6 (d : Date) (i : Str) (t : Str) :
    (create_stac_item d i [] t).geometry = none
    ∧ (create_stac_item d i [] t).bbox = none
    ∧ (create_stac_item d i [] t).assets = .val []
    ∧ (create_stac_item d i [] t).links = .val []
    ∧ (create_stac_item d i [] t).properties =
        .val { description := str "Error downloading or processing assets", invalid := true }
    ∧ (∀ es : List AssetEntry, (create_stac_item d i es t).assets = .val [] →
        create_stac_item d i es t = create_stac_item d i [] t) := by
  refine ⟨rfl, rfl, rfl, rfl, rfl, ?_⟩
  intro es hes
  cases es with
  | nil => rfl
  | cons e es =>
    exfalso
    have hlen := congrArg (fun c => match c with
      | CellVal.val l => l.length
      | _ => 0) hes
    simp only at hlen
    rw [show (create_stac_item d i (e :: es) t).assets =
      .val (rekeyAssets ((e :: es).map
        (fun e => { href := e.url, atype := t, roles := [str "data"] }))) from rfl] at hlen
    simp [rekeyAssets_length] at hlen

theorem spec_C6_witness :
    (create_stac_item ⟨2025, 1, 3⟩ (str "ICECHART_20250103") [] GEOJSON_TYPE).assets =
        CellVal.val []
    ∧ create_stac_item ⟨2025, 1, 3⟩ (str "ICECHART_20250103") [] GEOJSON_TYPE =
        create_stac_item ⟨2025, 1, 3⟩ (str "ICECHART_20250103") [] GEOJSON_TYPE :=
  ⟨by decide,
    (spec_C6 ⟨2025, 1, 3⟩ (str "ICECHART_20250103") GEOJSON_TYPE).2.2.2.2.2 [] (by decide)⟩

/-- C9: the invalid-row exclusion in `merge_items_per_day` removes exactly
the rows whose `properties` cell is a dict with `invalid = true`; a row
whose `properties` cell is missing or not a dict is retained (the filter is
a total Boolean predicate over such heterogeneous rows), and in particular
every valid item built by `create_stac_item` carries no `properties` key
and is retained. -/
theorem spec_C9 (row : Row) (d : Date) (i : Str) (t : Str) :
    (rowKept row = false ↔ ∃ q : Props, row.properties = .val q ∧ q.invalid = true)
    ∧ (row.properties = .absent ∨ row.properties = .other → rowKept row = true)
    ∧ (∀ es : List AssetEntry, es ≠ [] →
        (create_stac_item d i es t).properties = .absent
        ∧ rowKept (create_stac_item d i es t) = true) := by
  refine ⟨?_, ?_, ?_⟩
  · rcases hp : row.properties with _ | _ | q
    · simp [rowKept, hp]
    · simp [rowKept, hp]
    · simp only [rowKept, hp]
      constructor
      · intro h
        exact ⟨q, rfl, by simpa using h⟩
      · rintro ⟨q', hq', hinv⟩
        rw [CellVal.val.injEq] at hq'
        rw [← hq'] at hinv
        simp [hinv]
  · intro h
    rcases h with h | h <;> simp [rowKept, h]
  · intro es hes
    cases es with
    | nil => exact absurd rfl hes
    | cons e es => exact ⟨rfl, rfl⟩

theorem spec_C9_witness :
    ([sampleEntry] ≠ ([] : List AssetEntry))
    ∧ (create_stac_item ⟨2025, 1, 3⟩ (str "ICECHART_20250103") [sampleEntry]
          GEOJSON_TYPE).properties = CellVal.absent
    ∧ rowKept (create_stac_item ⟨2025, 1, 3⟩ (str "ICECHART_20250103") [sampleEntry]
          GEOJSON_TYPE) = true := by
  refine ⟨by decide, ?_⟩
  exact (spec_C9 sampleValidRow ⟨2025, 1, 3⟩ (str "ICECHART_20250103")
    GEOJSON_TYPE).2.2 [sampleEntry] (by decide)

/-- C7 (amended): style-link injection is skipped — the link list is
returned unchanged — exactly when the configured style URL is the empty
string or the record has no assets.  Omitting the `STYLE_URL` environment
variable does NOT suppress injection: `os.getenv` then yields the non-empty
built-in default URL, so suppression requires setting `STYLE_URL` to the
empty string. -/
theorem spec_C7 (su : Str) (row : Row)
    (h : su = [] ∨ rowAssetsDict row = []) :
    add_style_link su row = rowLinkList row
    ∧ styleUrlFromEnv none = STYLE_URL_DEFAULT
    ∧ STYLE_URL_DEFAULT ≠ [] := by
  refine ⟨?_, rfl, by decide⟩
  unfold add_style_link
  rcases h with h | h
  · rw [if_pos h]
  · by_cases hsu : su = []
    · rw [if_pos hsu]
    · rw [if_neg hsu]
      have : (rowAssetsDict row).map Prod.fst = [] := by rw [h]; rfl
      rw [if_pos this]

theorem spec_C7_witness :
    (([] : Str) = [] ∨ rowAssetsDict sampleValidRow = [])
    ∧ add_style_link [] sampleValidRow = rowLinkList sampleValidRow :=
  ⟨Or.inl rfl, (spec_C7 [] sampleValidRow (Or.inl rfl)).1⟩

/-- C7 counterexample: with the `STYLE_URL` environment variable omitted,
the configured style URL falls back to the non-empty default, and style-link
injection is NOT suppressed on a record with assets — refuting the claim
that omitting the variable suppresses injection. -/
theorem counterexample_C7 :
    add_style_link (styleUrlFromEnv none) sampleValidRow ≠
      rowLinkList sampleValidRow := by
  decide

/-- Applying `add_style_link` to a record with a configured style URL and assets:
drop old style links, append the fresh one. -/
theorem add_style_link_eq {su : Str} (row : Row) (hsu : su ≠ [])
    (hkeys : (rowAssetsDict row).map Prod.fst ≠ []) :
    add_style_link su row =
      (rowLinkList row).filter (fun l => !(l.rel == some (str "style"))) ++
        [{ rel := some (str "style"), href := su, ltype := str "text/vector-styles",
           assetKeys := (rowAssetsDict row).map Prod.fst }] := by
  simp only [add_style_link]
  rw [if_neg hsu, if_neg hkeys]

/-- C3: on a record with a non-empty configured style URL and a non-empty
asset mapping, applying `add_style_link` twice yields exactly one link with
`rel == "style"` (whose `asset:keys` is the record's current asset key
list); the second application drops the style link added by the first and
appends a fresh one, so applying twice equals applying once. -/
theorem spec_C3 (su : Str) (row : Row) (hsu : su ≠ [])
    (hkeys : (rowAssetsDict row).map Prod.fst ≠ []) :
    (add_style_link su { row with links := .val (add_style_link su row) }).filter
        (fun l => l.rel == some (str "style")) =
      [{ rel := some (str "style"), href := su, ltype := str "text/vector-styles",
         assetKeys := (rowAssetsDict row).map Prod.fst }]
    ∧ add_style_link su { row with links := .val (add_style_link su row) } =
        (add_style_link su row).filter (fun l => !(l.rel == some (str "style"))) ++
          [{ rel := some (str "style"), href := su, ltype := str "text/vector-styles",
             assetKeys := (rowAssetsDict row).map Prod.fst }]
    ∧ add_style_link su { row with links := .val (add_style_link su row) } =
        add_style_link su row := by
  have hl₁ : add_style_link su row =
      (rowLinkList row).filter (fun l => !(l.rel == some (str "style"))) ++
        [{ rel := some (str "style"), href := su, ltype := str "text/vector-styles",
           assetKeys := (rowAssetsDict row).map Prod.fst }] :=
    add_style_link_eq row hsu hkeys
  have hl₂ : add_style_link su { row with links := .val (add_style_link su row) } =
      (add_style_link su row).filter (fun l => !(l.rel == some (str "style"))) ++
        [{ rel := some (str "style"), href := su, ltype := str "text/vector-styles",
           assetKeys := (rowAssetsDict row).map Prod.fst }] := by
    have hkeys' : (rowAssetsDict { row with
        links := .val (add_style_link su row) }).map Prod.fst ≠ [] := hkeys
    have h := add_style_link_eq { row with links := .val (add_style_link su row) } hsu hkeys'
    rw [show rowLinkList { row with links := .val (add_style_link su row) } =
      add_style_link su row from rfl] at h
    exact h
  have hidem : ((rowLinkList row).filter
      (fun l => !(l.rel == some (str "style")))).filter
        (fun l => !(l.rel == some (str "style"))) =
      (rowLinkList row).filter (fun l => !(l.rel == some (str "style"))) := by
    rw [List.filter_filter]
    exact List.filter_congr (fun a _ => Bool.and_self _)
  have hfilter₁ : (add_style_link su row).filter
      (fun l => !(l.rel == some (str "style"))) =
      (rowLinkList row).filter (fun l => !(l.rel == some (str "style"))) := by
    rw [hl₁, List.filter_append, hidem]
    simp
  refine ⟨?_, hl₂, ?_⟩
  · rw [hl₂, hfilter₁, List.filter_append]
    have h1 : ((rowLinkList row).filter
        (fun l => !(l.rel == some (str "style")))).filter
          (fun l => l.rel == some (str "style")) = [] := by
      rw [List.filter_filter]
      have : ∀ a : Link, ((a.rel == some (str "style")) &&
          !(a.rel == some (str "style"))) = false := by
        intro a
        cases a.rel == some (str "style") <;> rfl
      refine List.filter_eq_nil_iff.mpr ?_
      intro a _
      simp [this a]
    rw [h1]
    simp
  · rw [hl₂, hfilter₁, ← hl₁]

theorem spec_C3_witness :
    (str "http://s/style.json" ≠ ([] : Str)
      ∧ (rowAssetsDict sampleValidRow).map Prod.fst ≠ [])
    ∧ add_style_link (str "http://s/style.json")
        { sampleValidRow with
          links := .val (add_style_link (str "http://s/style.json") sampleValidRow) } =
      add_style_link (str "http://s/style.json") sampleValidRow :=
  ⟨⟨by decide, by decide⟩,
    (spec_C3 (str "http://s/style.json") sampleValidRow (by decide) (by decide)).2.2⟩

/-- C8 (amended): `extract_date` parses the LEFTMOST 8-consecutive-digit
window of the name: if the leftmost such window is `ds` (no window of 8
digits starts earlier), the result is `parseYYYYMMDD ds` — a date when `ds`
is a valid `YYYYMMDD` date and nothing otherwise; if the name has no window
of 8 consecutive digits at all, the result is nothing.  (The original
claim — that a date is returned whenever the name contains ANY parseable
8-digit run — fails when an earlier digit window is unparsable.) -/
theorem spec_C8 :
    (∀ p ds s : Str, ds.length = 8 → (∀ c ∈ ds, c.isDigit = true) →
      (∀ j, j < p.length → ¬ digitWindow8 ((p ++ (ds ++ s)).drop j)) →
      extract_date (p ++ (ds ++ s)) = parseYYYYMMDD ds)
    ∧ (∀ name : Str, (∀ j, j < name.length → ¬ digitWindow8 (name.drop j)) →
      extract_date name = none) := by
  constructor
  · intro p ds s h1 h2 h3
    unfold extract_date
    rw [reSearchEight_leftmost p ds s h1 h2 h3]
  · intro name h
    unfold extract_date
    rw [reSearchEight_none name h]

theorem spec_C8_witness :
    ((str "ICE_").length = 4
      ∧ (str "20250103").length = 8
      ∧ (∀ c ∈ str "20250103", c.isDigit = true)
      ∧ extract_date (str "ICE_" ++ (str "20250103" ++ str "_x")) =
          parseYYYYMMDD (str "20250103"))
    ∧ extract_date (str "nodigits") = none := by
  refine ⟨⟨by decide, by decide, by decide, ?_⟩, ?_⟩
  · exact spec_C8.1 (str "ICE_") (str "20250103") (str "_x") (by decide) (by decide)
      (by decide)
  · exact spec_C8.2 (str "nodigits") (by decide)

/-- C8 counterexample: `"00000000_20250101"` contains the 8-digit run
`"20250101"`, which parses as the valid date 2025-01-01, yet `extract_date`
returns nothing, because the leftmost 8-digit window `"00000000"` does not
parse — refuting the claim as stated. -/
theorem counterexample_C8 :
    str "00000000_20250101" = str "00000000_" ++ str "20250101"
    ∧ (str "20250101").length = 8
    ∧ (∀ c ∈ str "20250101", c.isDigit = true)
    ∧ parseYYYYMMDD (str "20250101") = some ⟨2025, 1, 1⟩
    ∧ extract_date (str "00000000_20250101") = none := by
  refine ⟨by decide, by decide, by decide, by decide, by decide⟩

/-- C10: when the first digit run of the name is longer than 8 digits (all
of `d` are digits, `d` has at least 9 of them, and nothing before `d` is a
digit), `extract_date` does not reject the name: it returns exactly
`parseYYYYMMDD` of the first 8 digits of the run — a date whenever those 8
digits form a valid calendar date. -/
theorem spec_C10 (p d s : Str) (hp : ∀ c ∈ p, c.isDigit = false)
    (hlen : 9 ≤ d.length) (hd : ∀ c ∈ d, c.isDigit = true) :
    extract_date (p ++ (d ++ s)) = parseYYYYMMDD (d.take 8) := by
  have harr : p ++ (d ++ s) = p ++ (d.take 8 ++ (d.drop 8 ++ s)) := by
    conv_lhs => rw [← List.take_append_drop 8 d]
    rw [List.append_assoc]
  rw [harr]
  unfold extract_date
  rw [reSearchEight_leftmost p (d.take 8) (d.drop 8 ++ s) ?_ ?_ ?_]
  · rw [List.length_take]
    omega
  · intro c hc
    exact hd c (List.take_subset 8 d hc)
  · intro j hj hwin
    rw [← harr] at hwin
    obtain ⟨_, hwa⟩ := hwin
    have hdrop : (p ++ (d ++ s)).drop j = p.drop j ++ (d ++ s) :=
      List.drop_append_of_le_length (le_of_lt hj)
    have hpj : p.drop j = p[j] :: p.drop (j + 1) := List.drop_eq_getElem_cons hj
    rw [hdrop, hpj, List.cons_append, show (8 : Nat) = 7 + 1 from rfl,
      List.take_succ_cons, List.all_cons] at hwa
    have hdig : (p[j]).isDigit = true := (Bool.and_eq_true _ _).mp hwa |>.1
    have := hp p[j] (List.getElem_mem hj)
    rw [this] at hdig
    cases hdig

theorem spec_C10_witness :
    ((∀ c ∈ str "ICE_", c.isDigit = false)
      ∧ 9 ≤ (str "202501015").length
      ∧ (∀ c ∈ str "202501015", c.isDigit = true))
    ∧ extract_date (str "ICE_" ++ (str "202501015" ++ str "")) =
        parseYYYYMMDD ((str "202501015").take 8) :=
  ⟨⟨by decide, by decide, by decide⟩,
    spec_C10 (str "ICE_") (str "202501015") (str "") (by decide) (by decide) (by decide)⟩

/-- C5: discovery rejects every folder path whose name is already an id of
the persisted per-item table; consequently, after a first run persists the
names of everything it accepted, a second discovery pass over the same
bucket listing accepts the empty set; and with an unchanged per-item table
two discovery passes accept the same set (discovery is a pure filter). -/
theorem spec_C5 (s e : Date) (ids listing : List Str) :
    (∀ path ∈ listing, lastSeg path ∈ ids → path ∉ discover s e ids listing)
    ∧ discover s e (ids ++ (discover s e ids listing).map lastSeg) listing = []
    ∧ discover s e ids listing = discover s e ids listing := by
  refine ⟨?_, ?_, rfl⟩
  · intro path _ hmem hdisc
    have hacc : acceptFolder s e ids path = true := (List.mem_filter.mp hdisc).2
    obtain ⟨_, hany, _⟩ := (acceptFolder_true_iff s e ids path).mp hacc
    have htrue : ids.any (fun i => i == lastSeg path) = true :=
      List.any_eq_true.mpr ⟨lastSeg path, hmem, by simp⟩
    rw [htrue] at hany
    cases hany
  · refine List.filter_eq_nil_iff.mpr ?_
    intro path hpath hacc2
    obtain ⟨hskip, hany2, d, hdx, hdle⟩ :=
      (acceptFolder_true_iff s e (ids ++ (discover s e ids listing).map lastSeg)
        path).mp hacc2
    rw [List.any_append] at hany2
    obtain ⟨ha, hb⟩ := Bool.or_eq_false_iff.mp hany2
    have hacc1 : acceptFolder s e ids path = true :=
      (acceptFolder_true_iff s e ids path).mpr ⟨hskip, ha, d, hdx, hdle⟩
    have hrun1 : path ∈ discover s e ids listing :=
      List.mem_filter.mpr ⟨hpath, hacc1⟩
    have htrue : ((discover s e ids listing).map lastSeg).any
        (fun i => i == lastSeg path) = true :=
      List.any_eq_true.mpr ⟨lastSeg path, List.mem_map_of_mem lastSeg hrun1, by simp⟩
    rw [htrue] at hb
    cases hb

theorem spec_C5_witness :
    (str "b/ICECHART_20250103" ∈ [str "b/ICECHART_20250103"]
      ∧ lastSeg (str "b/ICECHART_20250103") ∈ [str "ICECHART_20250103"])
    ∧ str "b/ICECHART_20250103" ∉
        discover ⟨2025, 1, 1⟩ ⟨2025, 1, 5⟩ [str "ICECHART_20250103"]
          [str "b/ICECHART_20250103"] :=
  ⟨⟨by decide, by decide⟩,
    (spec_C5 ⟨2025, 1, 1⟩ ⟨2025, 1, 5⟩ [str "ICECHART_20250103"]
        [str "b/ICECHART_20250103"]).1
      (str "b/ICECHART_20250103") (by decide) (by decide)⟩

/-- C2: if a table holds, for day id `i`, exactly one row flagged
`properties.invalid = true` and one valid row (in either order), then
`merge_items_per_day` emits exactly one merged record for `i`, built from
the valid row alone — its geometry envelope is the valid row's geometry and
its assets are the valid row's re-keyed asset values; and in general every
row flagged invalid is excluded before grouping (the merge only sees the
kept rows). -/
theorem spec_C2 (df : List Row) (i : Str) (r_inv r_val : Row) (q : Props)
    (hfil : df.filter (fun row => row.id == i) = [r_inv, r_val] ∨
      df.filter (fun row => row.id == i) = [r_val, r_inv])
    (hip : r_inv.properties = .val q) (hqi : q.invalid = true)
    (hkv : rowKept r_val = true) :
    (merge_items_per_day df).filter (fun row => row.id == i) = [mergeGroup i [r_val]]
    ∧ (∀ b : Box, r_val.geometry = some b → (mergeGroup i [r_val]).geometry = some b)
    ∧ (∀ avs : List (Str × Asset), r_val.assets = .val avs →
        (mergeGroup i [r_val]).assets = .val (rekeyAssets (avs.map Prod.snd)))
    ∧ (∀ df' : List Row, merge_items_per_day df' = merge_items_per_day (df'.filter rowKept))
    ∧ (∀ (row : Row) (q' : Props), row.properties = .val q' → q'.invalid = true →
        rowKept row = false) := by
  have hki : rowKept r_inv = false := by simp [rowKept, hip, hqi]
  have hcomm : (df.filter rowKept).filter (fun row => row.id == i) = [r_val] := by
    rw [List.filter_comm]
    rcases hfil with h | h <;>
      · rw [h]
        simp [List.filter_cons, hki, hkv]
  have hany : (df.filter rowKept).any (fun row => row.id == i) = true := by
    have hv : r_val ∈ (df.filter rowKept).filter (fun row => row.id == i) := by
      rw [hcomm]
      exact List.mem_singleton.mpr rfl
    obtain ⟨hv1, hv2⟩ := List.mem_filter.mp hv
    exact List.any_eq_true.mpr ⟨r_val, hv1, hv2⟩
  refine ⟨?_, ?_, ?_, merge_restrict_kept, ?_⟩
  · rw [merge_filter_id, if_pos hany, hcomm]
  · intro b hb
    rw [mergeGroup_geometry]
    simp only [List.map_cons, List.map_nil]
    rw [hb]
    exact mergeGeoms_single b
  · intro avs ha
    rw [mergeGroup_assets]
    have hrv : rowAssetVals r_val = avs.map Prod.snd := by
      simp [rowAssetVals, ha]
    simp only [List.map_cons, List.map_nil, List.flatten_cons, List.flatten_nil,
      List.append_nil, hrv]
  · intro row q' hq' hqi'
    simp [rowKept, hq', hqi']

theorem spec_C2_witness :
    ([sampleInvalidRow, sampleValidRow].filter
        (fun row => row.id == str "2025-01-03") = [sampleInvalidRow, sampleValidRow]
      ∧ sampleInvalidRow.properties =
          CellVal.val ⟨str "Error downloading or processing assets", true⟩
      ∧ rowKept sampleValidRow = true)
    ∧ (merge_items_per_day [sampleInvalidRow, sampleValidRow]).filter
        (fun row => row.id == str "2025-01-03") =
      [mergeGroup (str "2025-01-03") [sampleValidRow]] :=
  ⟨⟨by decide, by decide, by decide⟩,
    (spec_C2 [sampleInvalidRow, sampleValidRow] (str "2025-01-03")
        sampleInvalidRow sampleValidRow
        ⟨str "Error downloading or processing assets", true⟩
        (Or.inl (by decide)) (by decide) (by decide) (by decide)).1⟩

/-- C4 (round-trip): an item built by `create_stac_item` from a non-empty
asset list, re-merged alone as a group of size one, yields a record with
the same geometry envelope and the same bbox; when the asset list is a
single entry, the merged record also carries the same single asset
descriptor keyed `asset_0`. -/
theorem spec_C4 (d : Date) (i : Str) (entries : List AssetEntry) (t : Str)
    (h : entries ≠ []) :
    merge_items_per_day [create_stac_item d i entries t] =
      [mergeGroup i [create_stac_item d i entries t]]
    ∧ (mergeGroup i [create_stac_item d i entries t]).geometry =
        (create_stac_item d i entries t).geometry
    ∧ (mergeGroup i [create_stac_item d i entries t]).bbox =
        (create_stac_item d i entries t).bbox
    ∧ (∀ e : AssetEntry, entries = [e] →
        (mergeGroup i [create_stac_item d i entries t]).assets =
            (create_stac_item d i entries t).assets
        ∧ (create_stac_item d i entries t).assets =
            .val [(assetKey 0, { href := e.url, atype := t, roles := [str "data"] })]) := by
  rcases entries with _ | ⟨e0, es⟩
  · exact absurd rfl h
  have hkid : (create_stac_item d i (e0 :: es) t).id = i := create_id d i (e0 :: es) t
  have hkept : rowKept (create_stac_item d i (e0 :: es) t) = true :=
    rowKept_create (List.cons_ne_nil e0 es)
  refine ⟨?_, ?_, ?_, ?_⟩
  · simp only [merge_items_per_day, List.filter_cons, List.filter_nil, hkept,
      if_pos trivial, sortedIds, List.map_cons, List.map_nil, hkid]
    simp [List.insertionSort, List.orderedInsert, List.dedup_nil, hkid]
  · rw [mergeGroup_geometry]
    simp only [List.map_cons, List.map_nil]
    rw [create_geometry_cons, mergeGeoms_single, ← create_geometry_cons d i e0 es t]
  · rw [mergeGroup_bbox]
    simp only [List.map_cons, List.map_nil]
    rw [create_geometry_cons, mergeGeoms_single]
    rfl
  · rintro e he
    injection he with he0 hes
    subst he0
    subst hes
    constructor
    · rw [mergeGroup_assets]
      have hrv : rowAssetVals (create_stac_item d i [e0] t) =
          [{ href := e0.url, atype := t, roles := [str "data"] }] :=
        rowAssetVals_create (List.cons_ne_nil e0 [])
      simp only [List.map_cons, List.map_nil, List.flatten_cons, List.flatten_nil,
        List.append_nil, hrv]
      rfl
    · rfl

theorem spec_C4_witness :
    ([sampleEntry] ≠ ([] : List AssetEntry))
    ∧ merge_items_per_day
        [create_stac_item ⟨2025, 1, 3⟩ (str "ICECHART_20250103") [sampleEntry]
          GEOJSON_TYPE] =
      [mergeGroup (str "ICECHART_20250103")
        [create_stac_item ⟨2025, 1, 3⟩ (str "ICECHART_20250103") [sampleEntry]
          GEOJSON_TYPE]] :=
  ⟨by decide,
    (spec_C4 ⟨2025, 1, 3⟩ (str "ICECHART_20250103") [sampleEntry] GEOJSON_TYPE
      (by decide)).1⟩

/-- C1: for every sequence of runs (each contributing its stream of
successfully processed `(date, asset-entry)` items, dates being
representable calendar dates), the daily table written at the end of the
last run equals the table obtained by recomputing the aggregation stage
from scratch on the full accumulated item stream — one merged, styled
record per calendar day of all non-invalid items.  The aggregation stage's
output is thus a function of the accumulated per-item data alone. -/
theorem spec_C1 (su : Str) (runs : List (List (Date × AssetEntry)))
    (hval : ∀ run ∈ runs, ∀ x ∈ run, validDate x.1 = true) :
    dailyAfterRuns su runs = recomputeDaily su runs.flatten := by
  rw [dailyAfterRuns_eq_canonical su runs hval,
    recomputeDaily_eq_canonical su ?_]
  intro x hx
  rcases List.mem_flatten.mp hx with ⟨run, hrun, hxr⟩
  exact hval run hrun x hxr

theorem spec_C1_witness :
    (∀ run ∈ [[((⟨2025, 1, 5⟩ : Date), sampleEntry)],
        [((⟨2025, 1, 3⟩ : Date), ⟨str "http://h/b.geojson", ⟨1, 1, 5, 4⟩⟩),
         ((⟨2025, 1, 5⟩ : Date), ⟨str "http://h/c.geojson", ⟨3, 3, 4, 9⟩⟩)]],
      ∀ x ∈ run, validDate x.1 = true)
    ∧ dailyAfterRuns (str "http://s/style.json")
        [[((⟨2025, 1, 5⟩ : Date), sampleEntry)],
         [((⟨2025, 1, 3⟩ : Date), ⟨str "http://h/b.geojson", ⟨1, 1, 5, 4⟩⟩),
          ((⟨2025, 1, 5⟩ : Date), ⟨str "http://h/c.geojson", ⟨3, 3, 4, 9⟩⟩)]] =
      recomputeDaily (str "http://s/style.json")
        [[((⟨2025, 1, 5⟩ : Date), sampleEntry)],
         [((⟨2025, 1, 3⟩ : Date), ⟨str "http://h/b.geojson", ⟨1, 1, 5, 4⟩⟩),
          ((⟨2025, 1, 5⟩ : Date), ⟨str "http://h/c.geojson", ⟨3, 3, 4, 9⟩⟩)]].flatten :=
  ⟨by decide,
    spec_C1 (str "http://s/style.json")
      [[((⟨2025, 1, 5⟩ : Date), sampleEntry)],
       [((⟨2025, 1, 3⟩ : Date), ⟨str "http://h/b.geojson", ⟨1, 1, 5, 4⟩⟩),
        ((⟨2025, 1, 5⟩ : Date), ⟨str "http://h/c.geojson", ⟨3, 3, 4, 9⟩⟩)]]
      (by decide)⟩

-- Executable sanity checks of the embedding.
example : extract_date (str "ICECHART_20250103") = some ⟨2025, 1, 3⟩ := by decide
example : extract_date (str "nodigits") = none := by decide
example : extract_date (str "ICE_20251301_x") = none := by decide
example : extract_date (str "00000000_20250101") = none := by decide
example : extract_date (str "ICE_202501015") = some ⟨2025, 1, 1⟩ := by decide
example : parseYYYYMMDD (str "20240229") = some ⟨2024, 2, 29⟩ := by decide
example : parseYYYYMMDD (str "20230229") = none := by decide
example : should_skip (str "BAD_x") = true := by decide
example : should_skip (str "x.tar") = true := by decide
example : should_skip (str "ICECHART_20250103") = false := by decide
example : assetKey 0 = str "asset_0" := by decide
example : assetKey 12 = str "asset_12" := by decide
example : isoDate ⟨2025, 1, 3⟩ = str "2025-01-03" := by decide
